import Mathlib

/-!
# TGE Reporting Tool — lead pipeline, shallow embedding

A shallow embedding of the lead-pipeline core of the TGE Reporting Tool
(Supabase migrations + Deno edge functions) together with proofs about the
claims of its specification.

Modelling conventions, used throughout:

* Text is modelled as `List Nat` of Unicode code points (the SQL and
  TypeScript sources operate on text; `97 = 'a'`, `32 = ' '`, `9 = '\t'`,
  `8 = backspace`).  `strChars` converts a Lean string literal into this
  representation for concrete inputs.
* UUIDs are modelled as `Nat`; `numeric(5,4)` confidences as naturals in
  units of `10⁻⁴` (the column's exact resolution), so `0.95 = 9500`.
* Database tables are lists of row structures; an insert prepends a row
  whose id is drawn from a `next_id` allocator; an `update ... eq id` maps
  over the list.  Timestamp columns that only record wall-clock times
  (`matched_at`, `reviewed_at`, `processed_at`, ...) are omitted.
* External black boxes — the pg_trgm `similarity` function, SHA-256, the
  OpenAI embeddings endpoint, per-row database write failures — are
  parameters of the functions that invoke them, so every theorem below is
  quantified over them.
-/

/-- Code points of a string, the `List Nat` text representation used by the
embedding. -/
def strChars (s : String) : List Nat :=
  s.data.map Char.toNat

/-! ## Normalizer (`supabase/migrations` utility functions)

`normalize_phone` and `normalize_address` are PL/pgSQL functions;
`email_normalized` is the generated column `lower(trim(email))` of
`source_leads` / `fub_leads`.  PostgreSQL semantics embedded here:

* `trim(x)` removes leading/trailing *space* characters (code 32) only;
* `lower` maps `A..Z` (65..90) to `a..z` (97..122);
* in a PostgreSQL regular expression `\s` is `[[:space:]]`
  (space, `\t`, `\n`, `\v`, `\f`, `\r`) while `\b` is a *backspace
  character-entry escape* (code 8), not a word boundary (that would be
  `\y`); so `'\bstreet\b'` matches the literal backspace-delimited token;
* `regexp_replace(s, pat, repl, 'g')` replaces leftmost non-overlapping
  occurrences, continuing after each replacement. -/

/-- PostgreSQL `lower` on one code point (ASCII case mapping). -/
def lowerChar (n : Nat) : Nat :=
  if 65 ≤ n ∧ n ≤ 90 then n + 32 else n

/-- `[0-9]` test used by `normalize_phone`'s `regexp_replace(phone, '[^0-9]', '', 'g')`. -/
def isDigitChar (n : Nat) : Bool :=
  48 ≤ n && n ≤ 57

/-- `[[:space:]]`, the class written `\s` in the source's regexes. -/
def isWsChar (n : Nat) : Bool :=
  n = 32 || n = 9 || n = 10 || n = 11 || n = 12 || n = 13

/-- PostgreSQL `trim(x)`: strip leading and trailing spaces (code 32 only). -/
def trimSpaces (l : List Nat) : List Nat :=
  (l.dropWhile (fun c => c = 32)).rdropWhile (fun c => c = 32)

/-- Is the first character (if any) whitespace? -/
def headIsWs : List Nat → Bool
  | [] => false
  | d :: _ => isWsChar d

/-- `regexp_replace(l, '\s+', ' ', 'g')`: collapse every maximal run of
whitespace to a single space (a whitespace character followed by more
whitespace is dropped; the last character of a run becomes `' '`). -/
def collapseWs : List Nat → List Nat
  | [] => []
  | c :: rest =>
    if isWsChar c && headIsWs rest then collapseWs rest
    else (if isWsChar c then 32 else c) :: collapseWs rest

/-- Global leftmost non-overlapping replacement of the literal pattern
`p0 :: ps` by `repl`, with a fuel argument bounding the recursion (each
step consumes at least one input character, so `l.length` fuel is enough;
see `replaceAll`). -/
def replaceAllF (p0 : Nat) (ps repl : List Nat) : Nat → List Nat → List Nat
  | _, [] => []
  | 0, l => l
  | fuel + 1, c :: rest =>
    if (p0 :: ps).isPrefixOf (c :: rest) then
      repl ++ replaceAllF p0 ps repl fuel (rest.drop ps.length)
    else
      c :: replaceAllF p0 ps repl fuel rest

/-- `regexp_replace(l, pattern, repl, 'g')` for a literal (regex-free)
pattern `p0 :: ps`. -/
def replaceAll (p0 : Nat) (ps repl l : List Nat) : List Nat :=
  replaceAllF p0 ps repl l.length l

/-- The backspace code point: what `\b` denotes inside a PostgreSQL
regular expression. -/
def bsChar : Nat := 8

/-- The pattern `'\bword\b'` of the source: backspace, the word, backspace. -/
def wordPat (w : List Nat) : List Nat :=
  bsChar :: (w ++ [bsChar])

/-- The 13 abbreviation substitutions of `normalize_address`, in source
order. -/
def abbrevPairs : List (List Nat × List Nat) :=
  [ (strChars "street", strChars "st"),
    (strChars "avenue", strChars "ave"),
    (strChars "boulevard", strChars "blvd"),
    (strChars "drive", strChars "dr"),
    (strChars "road", strChars "rd"),
    (strChars "lane", strChars "ln"),
    (strChars "court", strChars "ct"),
    (strChars "apartment", strChars "apt"),
    (strChars "suite", strChars "ste"),
    (strChars "north", strChars "n"),
    (strChars "south", strChars "s"),
    (strChars "east", strChars "e"),
    (strChars "west", strChars "w") ]

/-- The sequence of `regexp_replace(result, '\b<word>\b', '<abbrev>', 'g')`
calls of `normalize_address`. -/
def applyAbbrevs (l : List Nat) : List Nat :=
  abbrevPairs.foldl (fun acc pr => replaceAll bsChar (pr.1 ++ [bsChar]) pr.2 acc) l

/-- `normalize_phone`: `regexp_replace(phone, '[^0-9]', '', 'g')` (digits
only).  The SQL function maps NULL to NULL; this is the non-null branch. -/
def normalize_phone (l : List Nat) : List Nat :=
  l.filter isDigitChar

/-- `normalize_address`: `lower(trim(addr))`, then the 13 abbreviation
substitutions, then whitespace collapse.  The SQL function maps NULL to
NULL; this is the non-null branch. -/
def normalize_address (l : List Nat) : List Nat :=
  collapseWs (applyAbbrevs ((trimSpaces l).map lowerChar))

/-- The generated column `email_normalized = lower(trim(email))`. -/
def normalizeEmail (l : List Nat) : List Nat :=
  (trimSpaces l).map lowerChar

/-! ### Pointwise facts about `lowerChar` -/

theorem lowerChar_idem (n : Nat) : lowerChar (lowerChar n) = lowerChar n := by
  unfold lowerChar
  by_cases h : 65 ≤ n ∧ n ≤ 90
  · rw [if_pos h, if_neg (by omega)]
  · rw [if_neg h, if_neg h]

theorem lowerChar_eq_32_iff (n : Nat) : lowerChar n = 32 ↔ n = 32 := by
  unfold lowerChar
  split <;> omega

theorem lowerChar_eq_8_iff (n : Nat) : lowerChar n = 8 ↔ n = 8 := by
  unfold lowerChar
  split <;> omega

theorem isWsChar_lowerChar (n : Nat) : isWsChar (lowerChar n) = isWsChar n := by
  unfold lowerChar
  split
  · rw [Bool.eq_iff_iff]
    simp only [isWsChar, Bool.or_eq_true, decide_eq_true_eq]
    omega
  · rfl

/-! ### `trimSpaces` facts -/

theorem trimSpaces_head?_ne_32 (l : List Nat) {c : Nat}
    (h : (trimSpaces l).head? = some c) : c ≠ 32 := by
  unfold trimSpaces at h
  obtain ⟨t, ht⟩ := List.rdropWhile_prefix (fun c => decide (c = 32))
    (l := l.dropWhile (fun c => c = 32))
  have hhead : (l.dropWhile (fun c => decide (c = 32))).head? = some c := by
    rw [← ht]
    cases hrd : List.rdropWhile (fun c => decide (c = 32))
        (l.dropWhile (fun c => decide (c = 32))) with
    | nil => rw [hrd] at h; simp at h
    | cons a t2 =>
      rw [hrd] at h
      simp only [List.head?_cons, Option.some.injEq] at h
      subst h
      simp
  have hAne : l.dropWhile (fun c => decide (c = 32)) ≠ [] := by
    intro hnil
    rw [hnil] at hhead
    simp at hhead
  have hnot := List.head_dropWhile_not (fun c => decide (c = 32)) l hAne
  rw [List.head?_eq_head hAne] at hhead
  simp only [Option.some.injEq] at hhead
  subst hhead
  simpa using hnot

theorem trimSpaces_getLast_ne_32 (l : List Nat) (h : trimSpaces l ≠ []) :
    (trimSpaces l).getLast h ≠ 32 := by
  unfold trimSpaces at *
  have := List.rdropWhile_last_not (fun c => decide (c = 32))
    (l.dropWhile (fun c => c = 32)) h
  simpa using this

theorem trimSpaces_eq_self {l : List Nat}
    (h1 : ∀ c, l.head? = some c → c ≠ 32)
    (h2 : ∀ (h : l ≠ []), l.getLast h ≠ 32) : trimSpaces l = l := by
  unfold trimSpaces
  have hd : l.dropWhile (fun c => decide (c = 32)) = l := by
    rw [List.dropWhile_eq_self_iff]
    intro hl
    cases l with
    | nil => simp at hl
    | cons a t =>
      have := h1 a rfl
      simpa using this
  rw [hd, List.rdropWhile_eq_self_iff]
  intro hl
  simpa using h2 hl

theorem trimSpaces_idem (l : List Nat) : trimSpaces (trimSpaces l) = trimSpaces l := by
  apply trimSpaces_eq_self
  · intro c hc
    exact trimSpaces_head?_ne_32 l hc
  · intro h
    exact trimSpaces_getLast_ne_32 l h

theorem mem_trimSpaces_subset {c : Nat} {l : List Nat} (h : c ∈ trimSpaces l) : c ∈ l := by
  unfold trimSpaces at h
  have h1 := (List.rdropWhile_prefix (fun c => decide (c = 32))
    (l := l.dropWhile (fun c => c = 32))).subset h
  exact (List.dropWhile_sublist _).subset h1

/-! ### `collapseWs` facts -/

theorem collapseWs_eq_nil_iff (l : List Nat) : collapseWs l = [] ↔ l = [] := by
  induction l with
  | nil => simp [collapseWs]
  | cons c rest ih =>
    simp only [collapseWs]
    split
    · rename_i h
      rw [ih]
      simp only [Bool.and_eq_true] at h
      constructor
      · intro hr
        rw [hr] at h
        simp [headIsWs] at h
      · intro hx
        exact absurd hx (by simp)
    · simp

theorem collapseWs_mem {c : Nat} {l : List Nat} (h : c ∈ collapseWs l) :
    c = 32 ∨ c ∈ l := by
  induction l with
  | nil => simp [collapseWs] at h
  | cons a rest ih =>
    simp only [collapseWs] at h
    split at h
    · rcases ih h with h32 | hm
      · exact Or.inl h32
      · exact Or.inr (List.mem_cons_of_mem a hm)
    · rcases List.mem_cons.mp h with he | hm
      · subst he
        split
        · exact Or.inl rfl
        · exact Or.inr (List.mem_cons_self a rest)
      · rcases ih hm with h32 | hmm
        · exact Or.inl h32
        · exact Or.inr (List.mem_cons_of_mem a hmm)

theorem headIsWs_collapseWs (l : List Nat) : headIsWs (collapseWs l) = headIsWs l := by
  induction l with
  | nil => rfl
  | cons c rest ih =>
    simp only [collapseWs]
    split
    · rename_i h
      simp only [Bool.and_eq_true] at h
      rw [ih, h.2]
      simp [headIsWs, h.1]
    · by_cases hc : isWsChar c = true
      · rw [if_pos hc]
        show isWsChar 32 = isWsChar c
        rw [hc]
        decide
      · simp only [Bool.not_eq_true] at hc
        rw [if_neg (by simp [hc])]
        rfl

theorem getLast?_collapseWs_not_ws {l : List Nat}
    (h : ∀ c, l.getLast? = some c → isWsChar c = false) :
    ∀ c, (collapseWs l).getLast? = some c → isWsChar c = false := by
  induction l with
  | nil => simp [collapseWs]
  | cons a rest ih =>
    intro c hc
    cases rest with
    | nil =>
      have ha := h a (by simp)
      have hcw : collapseWs [a] = [a] := by
        simp [collapseWs, headIsWs, ha]
      rw [hcw] at hc
      simp only [List.getLast?_singleton, Option.some.injEq] at hc
      subst hc
      exact ha
    | cons b t =>
      have hrest : ∀ d, (b :: t).getLast? = some d → isWsChar d = false := by
        intro d hd
        exact h d (by rwa [List.getLast?_cons_cons])
      have hunf : collapseWs (a :: b :: t) =
          if (isWsChar a && headIsWs (b :: t)) = true then collapseWs (b :: t)
          else (if isWsChar a = true then 32 else a) :: collapseWs (b :: t) := rfl
      rw [hunf] at hc
      by_cases hcond : (isWsChar a && headIsWs (b :: t)) = true
      · rw [if_pos hcond] at hc
        exact ih hrest c hc
      · rw [if_neg hcond] at hc
        have hne : collapseWs (b :: t) ≠ [] := by
          rw [Ne, collapseWs_eq_nil_iff]
          simp
        cases hcw : collapseWs (b :: t) with
        | nil => exact absurd hcw hne
        | cons e u =>
          rw [hcw, List.getLast?_cons_cons] at hc
          exact ih hrest c (by rw [hcw]; exact hc)

theorem chain'_collapseWs (l : List Nat) :
    List.Chain' (fun a b => ¬(isWsChar a = true ∧ isWsChar b = true)) (collapseWs l) := by
  induction l with
  | nil => simp [collapseWs]
  | cons c rest ih =>
    simp only [collapseWs]
    split
    · exact ih
    · rename_i h
      rw [List.chain'_cons']
      refine ⟨?_, ih⟩
      intro b hb
      have hbws : isWsChar b = headIsWs (collapseWs rest) := by
        cases hcw : collapseWs rest with
        | nil => rw [hcw] at hb; simp at hb
        | cons e u =>
          rw [hcw] at hb
          simp only [List.head?_cons, Option.mem_def, Option.some.injEq] at hb
          subst hb
          rfl
      rw [headIsWs_collapseWs] at hbws
      by_cases hc : isWsChar c = true
      · have hrest : headIsWs rest = false := by
          by_contra hr
          simp only [Bool.not_eq_false] at hr
          rw [hc, hr] at h
          simp at h
      
        intro hcontra
        rw [hbws, hrest] at hcontra
        exact absurd hcontra.2 (by simp)
      · simp only [Bool.not_eq_true] at hc
        intro hcontra
        simp [hc] at hcontra

theorem collapseWs_eq_self {l : List Nat}
    (h32 : ∀ c ∈ l, isWsChar c = true → c = 32)
    (hch : List.Chain' (fun a b => ¬(isWsChar a = true ∧ isWsChar b = true)) l) :
    collapseWs l = l := by
  induction l with
  | nil => rfl
  | cons c rest ih =>
    simp only [collapseWs]
    have hcond : (isWsChar c && headIsWs rest) = false := by
      by_contra hc
      simp only [Bool.not_eq_false, Bool.and_eq_true] at hc
      cases rest with
      | nil => simp [headIsWs] at hc
      | cons d t =>
        have := List.chain'_cons.mp hch
        exact this.1 ⟨hc.1, by simpa [headIsWs] using hc.2⟩
    rw [hcond, if_neg (by simp)]
    have htail := ih (fun d hd hw => h32 d (List.mem_cons_of_mem c hd) hw) hch.tail
    rw [htail]
    by_cases hc : isWsChar c = true
    · rw [if_pos hc, h32 c (List.mem_cons_self c rest) hc]
    · rw [if_neg hc]

/-! ### `replaceAll` and `applyAbbrevs` on backspace-free text -/

theorem replaceAllF_eq_self {p0 : Nat} {ps repl l : List Nat}
    (h : ∀ c ∈ l, c ≠ p0) : ∀ fuel, replaceAllF p0 ps repl fuel l = l := by
  induction l with
  | nil => intro fuel; cases fuel <;> rfl
  | cons c rest ih =>
    intro fuel
    cases fuel with
    | zero => rfl
    | succ f =>
      have hcp : ¬ (p0 :: ps).isPrefixOf (c :: rest) = true := by
        intro hp
        rw [List.isPrefixOf_iff_prefix] at hp
        obtain ⟨t, ht⟩ := hp
        simp only [List.cons_append, List.cons.injEq] at ht
        exact h c (List.mem_cons_self c rest) ht.1.symm
      have hunf : replaceAllF p0 ps repl (f + 1) (c :: rest) =
          if (p0 :: ps).isPrefixOf (c :: rest) = true then
            repl ++ replaceAllF p0 ps repl f (rest.drop ps.length)
          else c :: replaceAllF p0 ps repl f rest := rfl
      rw [hunf, if_neg hcp, ih (fun d hd => h d (List.mem_cons_of_mem c hd)) f]

theorem replaceAll_eq_self {p0 : Nat} {ps repl l : List Nat}
    (h : ∀ c ∈ l, c ≠ p0) : replaceAll p0 ps repl l = l :=
  replaceAllF_eq_self h l.length

theorem applyAbbrevs_eq_self {l : List Nat} (h : ∀ c ∈ l, c ≠ bsChar) :
    applyAbbrevs l = l := by
  unfold applyAbbrevs
  generalize abbrevPairs = prs
  induction prs with
  | nil => rfl
  | cons pr rest ih =>
    rw [List.foldl_cons, replaceAll_eq_self h]
    exact ih

/-! ### Commuting `map lowerChar` with `trimSpaces` -/

theorem dropWhile32_map_lowerChar (l : List Nat) :
    (l.map lowerChar).dropWhile (fun c => decide (c = 32)) =
      (l.dropWhile (fun c => decide (c = 32))).map lowerChar := by
  induction l with
  | nil => rfl
  | cons c rest ih =>
    by_cases hc : c = 32
    · subst hc
      simp only [List.map_cons, List.dropWhile_cons]
      rw [show lowerChar 32 = 32 from rfl]
      simpa using ih
    · simp only [List.map_cons, List.dropWhile_cons]
      have h1 : ¬ lowerChar c = 32 := fun hl => hc ((lowerChar_eq_32_iff c).mp hl)
      simp [h1, hc]

theorem trimSpaces_map_lowerChar (l : List Nat) :
    trimSpaces (l.map lowerChar) = (trimSpaces l).map lowerChar := by
  unfold trimSpaces List.rdropWhile
  rw [dropWhile32_map_lowerChar, ← List.map_reverse, dropWhile32_map_lowerChar,
    ← List.map_reverse]

theorem headIsWs_map_lowerChar (l : List Nat) :
    headIsWs (l.map lowerChar) = headIsWs l := by
  cases l with
  | nil => rfl
  | cons c rest => exact isWsChar_lowerChar c

theorem headIsWs_trimSpaces_of {l : List Nat}
    (hws : ∀ c ∈ l, isWsChar c = true → c = 32) : headIsWs (trimSpaces l) = false := by
  cases h : trimSpaces l with
  | nil => rfl
  | cons a t =>
    have ha32 : a ≠ 32 := trimSpaces_head?_ne_32 l (by rw [h]; rfl)
    have hmem : a ∈ l := mem_trimSpaces_subset (by rw [h]; exact List.mem_cons_self a t)
    show isWsChar a = false
    by_contra hcon
    simp only [Bool.not_eq_false] at hcon
    exact ha32 (hws a hmem hcon)

theorem lastNotWs_trimSpaces_of {l : List Nat}
    (hws : ∀ c ∈ l, isWsChar c = true → c = 32) :
    ∀ c, (trimSpaces l).getLast? = some c → isWsChar c = false := by
  intro c hc
  have hne : trimSpaces l ≠ [] := by
    intro hnil
    rw [hnil] at hc
    simp at hc
  rw [List.getLast?_eq_getLast _ hne, Option.some.injEq] at hc
  subst hc
  have h32 := trimSpaces_getLast_ne_32 l hne
  have hmem : (trimSpaces l).getLast hne ∈ l :=
    mem_trimSpaces_subset (List.getLast_mem hne)
  by_contra hcon
  simp only [Bool.not_eq_false] at hcon
  exact h32 (hws _ hmem hcon)

theorem normalize_phone_idem (l : List Nat) :
    normalize_phone (normalize_phone l) = normalize_phone l := by
  unfold normalize_phone
  rw [List.filter_filter]
  simp

theorem normalizeEmail_idem (l : List Nat) :
    normalizeEmail (normalizeEmail l) = normalizeEmail l := by
  unfold normalizeEmail
  rw [trimSpaces_map_lowerChar, trimSpaces_idem, List.map_map]
  exact List.map_congr_left (fun a _ => lowerChar_idem a)

theorem normalize_address_idem {l : List Nat}
    (hws : ∀ c ∈ l, isWsChar c = true → c = 32)
    (hbs : ∀ c ∈ l, c ≠ bsChar) :
    normalize_address (normalize_address l) = normalize_address l := by
  have hwsx : ∀ c ∈ (trimSpaces l).map lowerChar, isWsChar c = true → c = 32 := by
    intro c hc hw
    obtain ⟨d, hd, rfl⟩ := List.mem_map.mp hc
    rw [isWsChar_lowerChar] at hw
    rw [hws d (mem_trimSpaces_subset hd) hw]
    rfl
  have hbsx : ∀ c ∈ (trimSpaces l).map lowerChar, c ≠ bsChar := by
    intro c hc hcon
    obtain ⟨d, hd, rfl⟩ := List.mem_map.mp hc
    exact hbs d (mem_trimSpaces_subset hd) ((lowerChar_eq_8_iff d).mp hcon)
  have hA : applyAbbrevs ((trimSpaces l).map lowerChar) = (trimSpaces l).map lowerChar :=
    applyAbbrevs_eq_self hbsx
  have hy : normalize_address l = collapseWs ((trimSpaces l).map lowerChar) := by
    rw [normalize_address, hA]
  set x := (trimSpaces l).map lowerChar with hxdef
  set y := collapseWs x with hydef
  have hwsy : ∀ c ∈ y, isWsChar c = true → c = 32 := by
    intro c hc hw
    rcases collapseWs_mem hc with h32 | hx
    · exact h32
    · exact hwsx c hx hw
  have hbsy : ∀ c ∈ y, c ≠ bsChar := by
    intro c hc
    rcases collapseWs_mem hc with h32 | hx
    · rw [h32]; decide
    · exact hbsx c hx
  have hlowy : ∀ c ∈ y, lowerChar c = c := by
    intro c hc
    rcases collapseWs_mem hc with h32 | hx
    · rw [h32]; rfl
    · obtain ⟨d, _, rfl⟩ := List.mem_map.mp hx
      exact lowerChar_idem d
  have hheady : headIsWs y = false := by
    rw [hydef, headIsWs_collapseWs, hxdef, headIsWs_map_lowerChar]
    exact headIsWs_trimSpaces_of hws
  have hlasty : ∀ c, y.getLast? = some c → isWsChar c = false := by
    apply getLast?_collapseWs_not_ws
    intro c hc
    rw [hxdef, List.getLast?_map] at hc
    cases hlast : (trimSpaces l).getLast? with
    | none => rw [hlast] at hc; simp at hc
    | some d =>
      rw [hlast] at hc
      simp only [Option.map_some', Option.some.injEq] at hc
      subst hc
      rw [isWsChar_lowerChar]
      exact lastNotWs_trimSpaces_of hws d hlast
  have hTy : trimSpaces y = y := by
    apply trimSpaces_eq_self
    · intro c hc hcon
      subst hcon
      cases hy2 : y with
      | nil => rw [hy2] at hc; simp at hc
      | cons a t =>
        rw [hy2] at hc
        simp only [List.head?_cons, Option.some.injEq] at hc
        have hhw : headIsWs y = isWsChar a := by rw [hy2]; rfl
        rw [hheady] at hhw
        rw [hc] at hhw
        simp [isWsChar] at hhw
    · intro hne hcon
      have := hlasty 32 (by rw [← hcon]; exact List.getLast?_eq_getLast _ hne)
      simp [isWsChar] at this
  have hmapy : y.map lowerChar = y := by
    have := List.map_congr_left (g := id) hlowy
    rwa [List.map_id] at this
  have hAy : applyAbbrevs y = y := applyAbbrevs_eq_self hbsy
  have hCy : collapseWs y = y := by
    apply collapseWs_eq_self hwsy
    rw [hydef]
    exact chain'_collapseWs x
  rw [hy]
  show normalize_address y = y
  rw [normalize_address, hTy, hmapy, hAy, hCy]

/-- C8: the claim asserts `f(f(x)) = f(x)` for every input string `x` and all
three normalizations.  This fails for `normalize_address`: (1) PostgreSQL
`trim` strips only spaces, so a leading tab survives the trim and is turned
into a leading space by the whitespace collapse, which the *second* pass then
trims away; (2) a replacement can manufacture a backspace-delimited token
(`'\x08str\x08east\x08et\x08'` becomes `'\x08street\x08'`, which the second
pass abbreviates).  Both failures are exhibited here. -/
theorem C8_counterexample :
    normalize_address (normalize_address (9 :: strChars "123 main st")) ≠
      normalize_address (9 :: strChars "123 main st") ∧
    normalize_address (normalize_address
        ([8] ++ strChars "str" ++ [8] ++ strChars "east" ++ [8] ++ strChars "et" ++ [8])) ≠
      normalize_address
        ([8] ++ strChars "str" ++ [8] ++ strChars "east" ++ [8] ++ strChars "et" ++ [8]) := by
  constructor
  · decide
  · decide

/-- C8 (amended): `normalize_phone` and email normalization (`lower ∘ trim`)
are idempotent for every input; `normalize_address` is idempotent for every
input whose whitespace characters are all plain spaces and which contains no
backspace character (the counterexample shows both exclusions are needed). -/
theorem C8_normalization_idempotent :
    (∀ l : List Nat, normalize_phone (normalize_phone l) = normalize_phone l) ∧
    (∀ l : List Nat, normalizeEmail (normalizeEmail l) = normalizeEmail l) ∧
    (∀ l : List Nat, (∀ c ∈ l, isWsChar c = true → c = 32) → (∀ c ∈ l, c ≠ bsChar) →
      normalize_address (normalize_address l) = normalize_address l) :=
  ⟨normalize_phone_idem, normalizeEmail_idem,
    fun _ hws hbs => normalize_address_idem hws hbs⟩

/-- Witness for `C8_normalization_idempotent` at the concrete address
`"123 Main Street"`. -/
theorem C8_witness :
    (∀ c ∈ strChars "123 Main Street", isWsChar c = true → c = 32) ∧
    normalize_address (normalize_address (strChars "123 Main Street")) =
      normalize_address (strChars "123 Main Street") :=
  ⟨by decide,
    C8_normalization_idempotent.2.2 (strChars "123 Main Street") (by decide) (by decide)⟩

/-! ## Match Scorer (`find_fub_matches`, migration `00006`)

Rows of `source_leads` and `fub_leads` restricted to the columns the
pipeline reads.  Confidences are `numeric(5,4)` values in `[0,1]`; they are
embedded as naturals in units of `10⁻⁴` (the column's exact resolution), so
`1.00 = 10000`, `0.95 = 9500`, `0.90 = 9000`, `0.60 = 6000`, `0.40 = 4000`.
The pg_trgm `similarity` function is an external black box passed in as
`sim` (already scaled); `match_details` carries diagnostic JSON only and is
omitted. -/

/-- `source_leads.match_status`. -/
inductive MatchStatus
  | pending
  | matched
  | unmatched
  | multiple
  | review
deriving DecidableEq

/-- `lead_matches.status`. -/
inductive LMStatus
  | active
  | disputed
  | invalidated
deriving DecidableEq

/-- `match_candidates.status`. -/
inductive MCStatus
  | pending
  | approved
  | rejected
  | expired
deriving DecidableEq

/-- `lead_matches.match_type` values this pipeline produces. -/
inductive MType
  | email_exact
  | phone_exact
  | address_fuzzy
  | manual
deriving DecidableEq

/-- A `source_leads` row (scorer/matcher columns). -/
structure SourceLeadRow where
  id : Nat
  organization_id : Nat
  email_normalized : Option (List Nat)
  phone_normalized : Option (List Nat)
  property_address_normalized : Option (List Nat)
  match_status : MatchStatus
  match_confidence : Option Nat
deriving DecidableEq

/-- A `fub_leads` row (scorer/matcher columns). -/
structure FubLeadRow where
  id : Nat
  organization_id : Nat
  email_normalized : Option (List Nat)
  phone_normalized : Option (List Nat)
  address_normalized : Option (List Nat)
  assigned_user_id : Option Nat
deriving DecidableEq

/-- An `agents` row (attribution columns). -/
structure AgentRow where
  id : Nat
  team_id : Nat
  fub_user_id : Option Nat
deriving DecidableEq

/-- One row of `find_fub_matches`' result table. -/
structure MatchResult where
  fub_lead_id : Nat
  match_type : MType
  confidence : Nat
deriving DecidableEq

/-- The `email_exact` branch of the scorer's `union all`:
`f.email_normalized = v.email_normalized`, source email non-null and
non-empty, confidence `1.0`. -/
def emailSignals (src : SourceLeadRow) (fubs : List FubLeadRow) : List MatchResult :=
  (fubs.filter fun f =>
    decide (f.organization_id = src.organization_id) &&
    match src.email_normalized with
    | some e => decide (e ≠ []) && decide (f.email_normalized = some e)
    | none => false).map
    fun f => { fub_lead_id := f.id, match_type := .email_exact, confidence := 10000 }

/-- The `phone_exact` branch: equal non-null phones, source phone of length
at least 10, confidence `0.95`. -/
def phoneSignals (src : SourceLeadRow) (fubs : List FubLeadRow) : List MatchResult :=
  (fubs.filter fun f =>
    decide (f.organization_id = src.organization_id) &&
    match src.phone_normalized with
    | some p => decide (10 ≤ p.length) && decide (f.phone_normalized = some p)
    | none => false).map
    fun f => { fub_lead_id := f.id, match_type := .phone_exact, confidence := 9500 }

/-- The `address_fuzzy` branch: both normalized addresses non-null and
non-empty, `similarity(f.address, src.address) > 0.6`, confidence equal to
the similarity. -/
def addressSignals (sim : List Nat → List Nat → Nat) (src : SourceLeadRow)
    (fubs : List FubLeadRow) : List MatchResult :=
  (fubs.filter fun f =>
    decide (f.organization_id = src.organization_id) &&
    match src.property_address_normalized, f.address_normalized with
    | some a, some b => decide (a ≠ []) && decide (b ≠ []) && decide (6000 < sim b a)
    | _, _ => false).map
    fun f =>
      { fub_lead_id := f.id, match_type := .address_fuzzy,
        confidence :=
          match src.property_address_normalized, f.address_normalized with
          | some a, some b => sim b a
          | _, _ => 0 }

/-- The scorer's `union all` of the three signal branches, in source order. -/
def matchSignals (sim : List Nat → List Nat → Nat) (src : SourceLeadRow)
    (fubs : List FubLeadRow) : List MatchResult :=
  emailSignals src fubs ++ phoneSignals src fubs ++ addressSignals sim src fubs

/-- The scorer's `order by m.fub_lead_id, m.confidence desc`. -/
def matchLe (a b : MatchResult) : Prop :=
  a.fub_lead_id < b.fub_lead_id ∨
    (a.fub_lead_id = b.fub_lead_id ∧ b.confidence ≤ a.confidence)

instance : DecidableRel matchLe := fun a b => by
  unfold matchLe
  infer_instance

instance : IsTotal MatchResult matchLe := ⟨by
  intro a b
  unfold matchLe
  rcases Nat.lt_trichotomy a.fub_lead_id b.fub_lead_id with h | h | h
  · exact Or.inl (Or.inl h)
  · rcases Nat.le_total a.confidence b.confidence with hq | hq
    · exact Or.inr (Or.inr ⟨h.symm, hq⟩)
    · exact Or.inl (Or.inr ⟨h, hq⟩)
  · exact Or.inr (Or.inl h)⟩

instance : IsTrans MatchResult matchLe := ⟨by
  intro a b c hab hbc
  unfold matchLe at *
  rcases hab with h1 | ⟨h1, h1q⟩ <;> rcases hbc with h2 | ⟨h2, h2q⟩
  · exact Or.inl (h1.trans h2)
  · exact Or.inl (h2 ▸ h1)
  · exact Or.inl (h1 ▸ h2)
  · exact Or.inr ⟨h1.trans h2, h2q.trans h1q⟩⟩

/-- `select distinct on (m.fub_lead_id)` over a list already ordered by
`(fub_lead_id, confidence desc)`: keep the first row of each
`fub_lead_id` group. -/
def distinctOnAux (seen : List Nat) : List MatchResult → List MatchResult
  | [] => []
  | r :: rest =>
    if r.fub_lead_id ∈ seen then distinctOnAux seen rest
    else r :: distinctOnAux (r.fub_lead_id :: seen) rest

/-- `find_fub_matches(p_source_lead_id, p_max_results default 5)`:
the three-branch `union all`, `distinct on (fub_lead_id)` under
`order by fub_lead_id, confidence desc`, then `limit p_max_results`. -/
def find_fub_matches (sim : List Nat → List Nat → Nat) (src : SourceLeadRow)
    (fubs : List FubLeadRow) (p_max_results : Nat) : List MatchResult :=
  (distinctOnAux [] (List.insertionSort matchLe (matchSignals sim src fubs))).take
    p_max_results

/-! ### Shape of the scorer result -/

theorem distinctOnAux_sublist (seen : List Nat) (l : List MatchResult) :
    (distinctOnAux seen l).Sublist l := by
  induction l generalizing seen with
  | nil => simp [distinctOnAux]
  | cons r rest ih =>
    simp only [distinctOnAux]
    split
    · exact (ih seen).cons r
    · exact (ih (r.fub_lead_id :: seen)).cons₂ r

theorem mem_distinctOnAux_not_seen {seen : List Nat} {l : List MatchResult}
    {r : MatchResult} (h : r ∈ distinctOnAux seen l) : r.fub_lead_id ∉ seen := by
  induction l generalizing seen with
  | nil => simp [distinctOnAux] at h
  | cons x rest ih =>
    simp only [distinctOnAux] at h
    split at h
    · exact ih h
    · rcases List.mem_cons.mp h with hrx | hm
      · subst hrx
        assumption
      · intro hcon
        exact ih hm (List.mem_cons_of_mem _ hcon)

theorem pairwise_ne_distinctOnAux (seen : List Nat) (l : List MatchResult) :
    (distinctOnAux seen l).Pairwise
      (fun a b => a.fub_lead_id ≠ b.fub_lead_id) := by
  induction l generalizing seen with
  | nil => simp [distinctOnAux]
  | cons x rest ih =>
    simp only [distinctOnAux]
    split
    · exact ih seen
    · refine List.Pairwise.cons ?_ (ih (x.fub_lead_id :: seen))
      intro b hb
      intro hcon
      exact mem_distinctOnAux_not_seen hb (by rw [← hcon]; exact List.mem_cons_self _ _)

theorem distinctOnAux_max {S : List MatchResult} (hs : S.Sorted matchLe) :
    ∀ {seen : List Nat} {r : MatchResult}, r ∈ distinctOnAux seen S →
      ∀ s ∈ S, s.fub_lead_id = r.fub_lead_id → s.confidence ≤ r.confidence := by
  induction S with
  | nil => intro seen r hr; simp [distinctOnAux] at hr
  | cons x rest ih =>
    intro seen r hr s hsmem hid
    rw [List.sorted_cons] at hs
    simp only [distinctOnAux] at hr
    split at hr
    · rename_i hseen
      have hrns := mem_distinctOnAux_not_seen hr
      rcases List.mem_cons.mp hsmem with hsx | hsrest
      · subst hsx
        exact absurd hid (fun hc => hrns (hc ▸ hseen))
      · exact ih hs.2 hr s hsrest hid
    · rcases List.mem_cons.mp hr with hrx | hrtail
      · subst hrx
        rcases List.mem_cons.mp hsmem with hsx | hsrest
        · subst hsx; exact Nat.le_refl _
        · rcases hs.1 s hsrest with hlt | ⟨_, hle⟩
          · exact absurd hid (by omega)
          · exact hle
      · have hrns := mem_distinctOnAux_not_seen hrtail
        rcases List.mem_cons.mp hsmem with hsx | hsrest
        · subst hsx
          exact absurd hid (fun hc => hrns (by rw [← hc]; exact List.mem_cons_self _ _))
        · exact ih hs.2 hrtail s hsrest hid

theorem sorted_ids_of_sorted_matchLe {S : List MatchResult} (hs : S.Sorted matchLe) :
    S.Pairwise (fun a b => a.fub_lead_id ≤ b.fub_lead_id) := by
  refine hs.imp ?_
  intro a b hab
  rcases hab with h | ⟨h, _⟩
  · exact Nat.le_of_lt h
  · exact Nat.le_of_eq h

/-- C3 (amended): the scorer returns at most `N` rows, at most one per CRM
lead, each row being one of the pair's signals and carrying the pair's
maximum confidence — but the returned rows are sorted by `fub_lead_id`
ascending (the `distinct on` sort key), not by confidence descending, and
the `limit N` therefore keeps the `N` smallest CRM-lead ids rather than the
`N` best confidences. -/
theorem C3_scorer_result_shape (sim : List Nat → List Nat → Nat)
    (src : SourceLeadRow) (fubs : List FubLeadRow) (N : Nat) :
    (find_fub_matches sim src fubs N).length ≤ N ∧
    (find_fub_matches sim src fubs N).Pairwise
      (fun a b => a.fub_lead_id ≠ b.fub_lead_id) ∧
    (∀ r ∈ find_fub_matches sim src fubs N,
      r ∈ matchSignals sim src fubs ∧
      ∀ s ∈ matchSignals sim src fubs,
        s.fub_lead_id = r.fub_lead_id → s.confidence ≤ r.confidence) ∧
    (find_fub_matches sim src fubs N).Pairwise
      (fun a b => a.fub_lead_id ≤ b.fub_lead_id) := by
  have hperm := List.perm_insertionSort matchLe (matchSignals sim src fubs)
  have hsorted := List.sorted_insertionSort matchLe (matchSignals sim src fubs)
  set S := List.insertionSort matchLe (matchSignals sim src fubs) with hS
  have htake : (find_fub_matches sim src fubs N).Sublist (distinctOnAux [] S) :=
    List.take_sublist _ _
  refine ⟨List.length_take_le _ _, ?_, ?_, ?_⟩
  · exact (pairwise_ne_distinctOnAux [] S).sublist htake
  · intro r hr
    have hrd : r ∈ distinctOnAux [] S := htake.subset hr
    have hrS : r ∈ S := (distinctOnAux_sublist [] S).subset hrd
    refine ⟨hperm.subset hrS, ?_⟩
    intro s hsmem hid
    exact distinctOnAux_max hsorted hrd s (hperm.mem_iff.mpr hsmem) hid
  · exact ((sorted_ids_of_sorted_matchLe hsorted).sublist
      (distinctOnAux_sublist [] S)).sublist htake

/-- Concrete scorer instance for the C3 counterexample: similarity is the
constant `0.70`. -/
def scorerSim : List Nat → List Nat → Nat := fun _ _ => 7000

/-- Concrete source lead: email `a@b.c`, address `456 oak ave`. -/
def scorerSrc : SourceLeadRow :=
  { id := 10, organization_id := 1,
    email_normalized := some (strChars "a@b.c"),
    phone_normalized := none,
    property_address_normalized := some (strChars "456 oak ave"),
    match_status := .pending, match_confidence := none }

/-- Concrete CRM lead 1: only an address (fuzzy signal `0.70`). -/
def scorerFub1 : FubLeadRow :=
  { id := 1, organization_id := 1, email_normalized := none,
    phone_normalized := none,
    address_normalized := some (strChars "456 oak avenue"),
    assigned_user_id := none }

/-- Concrete CRM lead 2: the same email as the source (signal `1.00`). -/
def scorerFub2 : FubLeadRow :=
  { id := 2, organization_id := 1,
    email_normalized := some (strChars "a@b.c"),
    phone_normalized := none, address_normalized := none,
    assigned_user_id := none }

/-- C3 counterexample: with two CRM leads whose best signals are `0.70`
(id 1) and `1.00` (id 2), the scorer returns confidences `[0.70, 1.00]` —
ordered by `fub_lead_id`, not by confidence descending as the claim
states. -/
theorem C3_counterexample :
    (find_fub_matches scorerSim scorerSrc [scorerFub1, scorerFub2] 5).map
        (fun r => r.confidence) = [7000, 10000] ∧
    ¬ (find_fub_matches scorerSim scorerSrc [scorerFub1, scorerFub2] 5).Pairwise
        (fun a b => b.confidence ≤ a.confidence) := by
  constructor
  · decide
  · decide

/-- Witness for `C3_scorer_result_shape` at the concrete scorer instance:
the returned row for CRM lead 1 is one of the computed signals. -/
theorem C3_witness :
    (⟨1, MType.address_fuzzy, 7000⟩ : MatchResult) ∈
      matchSignals scorerSim scorerSrc [scorerFub1, scorerFub2] :=
  ((C3_scorer_result_shape scorerSim scorerSrc [scorerFub1, scorerFub2] 5).2.2.1
    ⟨1, MType.address_fuzzy, 7000⟩ (by decide)).1

/-! ## Matcher and Review Resolver state

The tables touched by `processMatches` (`_shared/matching.ts`) and
`approveCandidate`: `source_leads`, `fub_leads`, `agents`, `lead_matches`,
`match_candidates`, `data_lineage`.  Inserted rows draw their UUID from the
`next_id` allocator.  The `unique(source_lead_id, fub_lead_id)` constraints
of `lead_matches` and `match_candidates` are modelled (an insert that would
violate the former fails exactly as the TS code's thrown
`Failed to create match`); `match_details` JSON and timestamps are
omitted. -/

/-- `lead_matches.matched_by`. -/
inductive MatchedBy
  | system
  | ai
  | manual
deriving DecidableEq

/-- Table names appearing in `data_lineage` rows of this pipeline. -/
inductive DbTable
  | source_leads
  | lead_matches
  | raw_lead_rows
deriving DecidableEq

/-- `data_lineage.operation` values. -/
inductive LineageOp
  | create
  | update
  | merge
  | split
  | derive
deriving DecidableEq

/-- `data_lineage.transformation_type` values (`matchT` stands for the
source's `'match'`, which is a reserved word in Lean). -/
inductive XformType
  | normalize
  | matchT
  | enrich
  | dedupe
deriving DecidableEq

/-- `data_lineage.performed_by` values this pipeline writes. -/
inductive Performer
  | system
  | functionLeadTransformer
deriving DecidableEq

/-- A `lead_matches` row. -/
structure LeadMatchRow where
  id : Nat
  source_lead_id : Nat
  fub_lead_id : Nat
  match_type : MType
  match_confidence : Nat
  matched_by : MatchedBy
  matched_by_user_id : Option Nat
  attributed_agent_id : Option Nat
  attributed_team_id : Option Nat
  status : LMStatus
deriving DecidableEq

/-- One entry of a candidate's `match_reasons` array (the JSON also carries
a `field` string derived from `type` and a `details` blob; both omitted). -/
structure MatchReason where
  type : MType
  score : Nat
deriving DecidableEq

/-- A `match_candidates` row. -/
structure MatchCandidateRow where
  id : Nat
  source_lead_id : Nat
  fub_lead_id : Nat
  confidence_score : Nat
  match_reasons : List MatchReason
  status : MCStatus
  reviewed_by : Option Nat
  lead_match_id : Option Nat
deriving DecidableEq

/-- A `data_lineage` row. -/
structure LineageRow where
  id : Nat
  source_table : DbTable
  source_id : Nat
  target_table : DbTable
  target_id : Nat
  operation : LineageOp
  transformation_type : XformType
  performed_by : Performer
deriving DecidableEq

/-- The database state seen by the Matcher and the Review Resolver. -/
structure MatcherState where
  source_leads : List SourceLeadRow
  fub_leads : List FubLeadRow
  agents : List AgentRow
  lead_matches : List LeadMatchRow
  match_candidates : List MatchCandidateRow
  data_lineage : List LineageRow
  next_id : Nat
deriving DecidableEq

/-- The `MATCH_THRESHOLDS` constant object of `_shared/matching.ts`
(`AUTO_MATCH: 0.9`, `REVIEW_THRESHOLD: 0.6`, `REJECT_THRESHOLD: 0.4`),
scaled by `10⁴`.  `REVIEW_THRESHOLD` is declared but never read by
`processMatches` — exactly as in the source. -/
structure Thresholds where
  AUTO_MATCH : Nat
  REVIEW_THRESHOLD : Nat
  REJECT_THRESHOLD : Nat

/-- The source's threshold values. -/
def MATCH_THRESHOLDS : Thresholds :=
  { AUTO_MATCH := 9000, REVIEW_THRESHOLD := 6000, REJECT_THRESHOLD := 4000 }

/-- `update source_leads set ... where id = sid`. -/
def updateSourceLead (st : MatcherState) (sid : Nat)
    (f : SourceLeadRow → SourceLeadRow) : MatcherState :=
  { st with
    source_leads := st.source_leads.map fun r => if r.id = sid then f r else r }

/-- Attribution lookup shared by the auto-match and approve paths: read the
FUB lead's `assigned_user_id`, then find the agent with that `fub_user_id`;
returns `(attributed_agent_id, attributed_team_id)`. -/
def resolveAttribution (st : MatcherState) (fubLeadId : Nat) :
    Option Nat × Option Nat :=
  match st.fub_leads.find? fun f => decide (f.id = fubLeadId) with
  | none => (none, none)
  | some f =>
    match f.assigned_user_id with
    | none => (none, none)
    | some uid =>
      match st.agents.find? fun a => decide (a.fub_user_id = some uid) with
      | none => (none, none)
      | some agent => (some agent.id, some agent.team_id)

/-- Does a `lead_matches` row for this `(source_lead_id, fub_lead_id)` pair
already exist (the table's unique constraint)? -/
def leadMatchPairExists (st : MatcherState) (sid fid : Nat) : Bool :=
  st.lead_matches.any fun m =>
    decide (m.source_lead_id = sid ∧ m.fub_lead_id = fid)

/-- One row of the candidate upsert
(`onConflict: "source_lead_id,fub_lead_id"`): update `confidence_score` and
`match_reasons` of the existing key, or insert a fresh `pending` row. -/
def upsertCandidate (st : MatcherState) (sid fid conf : Nat)
    (reasons : List MatchReason) : MatcherState :=
  if st.match_candidates.any fun c =>
      decide (c.source_lead_id = sid ∧ c.fub_lead_id = fid) then
    { st with
      match_candidates := st.match_candidates.map fun c =>
        if c.source_lead_id = sid ∧ c.fub_lead_id = fid then
          { c with confidence_score := conf, match_reasons := reasons }
        else c }
  else
    { st with
      match_candidates :=
        { id := st.next_id, source_lead_id := sid, fub_lead_id := fid,
          confidence_score := conf, match_reasons := reasons,
          status := .pending, reviewed_by := none, lead_match_id := none } ::
          st.match_candidates,
      next_id := st.next_id + 1 }

/-- The batched candidate upsert of `processMatches`: one
`upsertCandidate` per review-band result, in order. -/
def upsertCandidates (st : MatcherState) (sid : Nat) (cs : List MatchResult) :
    MatcherState :=
  cs.foldl
    (fun s c => upsertCandidate s sid c.fub_lead_id c.confidence
      [{ type := c.match_type, score := c.confidence }])
    st

/-- Outcome of `processMatches` (`{matched, matchId?, candidatesCreated}`,
or a thrown error). -/
inductive PMResult
  | ok (matched : Bool) (matchId : Option Nat) (candidatesCreated : Nat)
  | error
deriving DecidableEq

/-- The review-band filter of `processMatches`:
`m.confidence >= MATCH_THRESHOLDS.REJECT_THRESHOLD && m.confidence < MATCH_THRESHOLDS.AUTO_MATCH`. -/
def bandFilter (results : List MatchResult) : List MatchResult :=
  results.filter fun m =>
    decide (MATCH_THRESHOLDS.REJECT_THRESHOLD ≤ m.confidence) &&
    decide (m.confidence < MATCH_THRESHOLDS.AUTO_MATCH)

/-- `processMatches(supabase, sourceLeadId, matches, organizationId)` of
`_shared/matching.ts`, modelled write for write:

* no scorer results → the lead is set `unmatched`;
* first result with confidence `≥ AUTO_MATCH` → resolve attribution, insert
  an (`active`) `lead_matches` row (failing, with no writes, if the
  `(source_lead_id, fub_lead_id)` unique key exists — the thrown
  `Failed to create match`), set the lead `matched`, append a lineage row;
* otherwise upsert a candidate for every result with confidence in
  `[REJECT_THRESHOLD, AUTO_MATCH)` (a payload with duplicate keys makes the
  whole upsert statement fail, which the source only logs), set the lead
  `multiple`/`review` with `match_confidence = max`, or `unmatched` when
  that band is empty.

The `organizationId` parameter is unused, as in the source. -/
def processMatches (st : MatcherState) (sourceLeadId : Nat)
    (results : List MatchResult) (organizationId : Nat) :
    MatcherState × PMResult :=
  if results.isEmpty then
    (updateSourceLead st sourceLeadId fun L => { L with match_status := .unmatched },
      .ok false none 0)
  else
    match results.find? fun m =>
        decide (MATCH_THRESHOLDS.AUTO_MATCH ≤ m.confidence) with
    | some autoMatch =>
      let attrib := resolveAttribution st autoMatch.fub_lead_id
      if leadMatchPairExists st sourceLeadId autoMatch.fub_lead_id then
        (st, .error)
      else
        let matchId := st.next_id
        let st1 : MatcherState :=
          { st with
            lead_matches :=
              { id := matchId, source_lead_id := sourceLeadId,
                fub_lead_id := autoMatch.fub_lead_id,
                match_type := autoMatch.match_type,
                match_confidence := autoMatch.confidence,
                matched_by := .system, matched_by_user_id := none,
                attributed_agent_id := attrib.1,
                attributed_team_id := attrib.2,
                status := .active } :: st.lead_matches,
            next_id := st.next_id + 1 }
        let st2 := updateSourceLead st1 sourceLeadId fun L =>
          { L with match_status := .matched,
                   match_confidence := some autoMatch.confidence }
        let st3 : MatcherState :=
          { st2 with
            data_lineage :=
              { id := st2.next_id, source_table := .source_leads,
                source_id := sourceLeadId, target_table := .lead_matches,
                target_id := matchId, operation := .create,
                transformation_type := .matchT, performed_by := .system } ::
                st2.data_lineage,
            next_id := st2.next_id + 1 }
        (st3, .ok true (some matchId) 0)
    | none =>
      let candidates := bandFilter results
      if 0 < candidates.length then
        let st1 :=
          if (candidates.map fun c => c.fub_lead_id).Nodup then
            upsertCandidates st sourceLeadId candidates
          else st
        let st2 := updateSourceLead st1 sourceLeadId fun L =>
          { L with
            match_status := if 1 < candidates.length then .multiple else .review,
            match_confidence :=
              some ((candidates.map fun c => c.confidence).foldl Nat.max 0) }
        (st2, .ok false none candidates.length)
      else
        (updateSourceLead st sourceLeadId
            fun L => { L with match_status := .unmatched },
          .ok false none 0)

/-- `approveCandidate(supabase, candidateId, reviewedBy)` of
`_shared/matching.ts`, modelled write for write.  Note that the source
never checks `candidate.status`: any existing candidate is approved.  The
insert fails (`Failed to create match`) only on the
`(source_lead_id, fub_lead_id)` unique key; nothing is written in that
case, since the insert is the first write. -/
def approveCandidate (st : MatcherState) (candidateId reviewedBy : Nat) :
    MatcherState × Except Unit Nat :=
  match st.match_candidates.find? fun c => decide (c.id = candidateId) with
  | none => (st, .error ())
  | some candidate =>
    let attrib := resolveAttribution st candidate.fub_lead_id
    if leadMatchPairExists st candidate.source_lead_id candidate.fub_lead_id then
      (st, .error ())
    else
      let matchId := st.next_id
      let st1 : MatcherState :=
        { st with
          lead_matches :=
            { id := matchId, source_lead_id := candidate.source_lead_id,
              fub_lead_id := candidate.fub_lead_id, match_type := .manual,
              match_confidence := candidate.confidence_score,
              matched_by := .manual, matched_by_user_id := some reviewedBy,
              attributed_agent_id := attrib.1,
              attributed_team_id := attrib.2,
              status := .active } :: st.lead_matches,
          next_id := st.next_id + 1 }
      let st2 : MatcherState :=
        { st1 with
          match_candidates := st1.match_candidates.map fun c =>
            if c.id = candidateId then
              { c with status := .approved, reviewed_by := some reviewedBy,
                       lead_match_id := some matchId }
            else c }
      let st3 := updateSourceLead st2 candidate.source_lead_id fun L =>
        { L with match_status := .matched,
                 match_confidence := some candidate.confidence_score }
      let st4 : MatcherState :=
        { st3 with
          match_candidates := st3.match_candidates.map fun c =>
            if c.source_lead_id = candidate.source_lead_id ∧
                c.id ≠ candidateId ∧ c.status = .pending then
              { c with status := .rejected, reviewed_by := some reviewedBy }
            else c }
      (st4, .ok matchId)

/-- One iteration of the `lead-matcher` edge function's per-lead loop: load
the lead (a missing lead only counts an error), score it through
`find_fub_matches` (default limit 5), then `processMatches`.  A thrown
`processMatches` error is caught by the loop, so the state it left behind
stands. -/
def runMatcherOnLead (sim : List Nat → List Nat → Nat) (st : MatcherState)
    (sid : Nat) : MatcherState :=
  match st.source_leads.find? fun L => decide (L.id = sid) with
  | none => st
  | some lead =>
    (processMatches st sid (find_fub_matches sim lead st.fub_leads 5)
      lead.organization_id).1

/-- The `lead-matcher` edge function invoked with an explicit
`source_lead_ids` list: every listed lead is processed, whatever its
`match_status`. -/
def matcherRunExplicit (sim : List Nat → List Nat → Nat) (st : MatcherState)
    (ids : List Nat) : MatcherState :=
  ids.foldl (fun s i => runMatcherOnLead sim s i) st

/-- Ids of the leads the cron/organization mode selects:
`match_status = 'pending'`. -/
def pendingLeadIds (st : MatcherState) : List Nat :=
  (st.source_leads.filter fun L => decide (L.match_status = .pending)).map
    fun L => L.id

/-- The `lead-matcher` edge function in cron/organization mode: only leads
with `match_status = 'pending'` are selected (`limit batch_size`, default
100). -/
def matcherRunCron (sim : List Nat → List Nat → Nat) (st : MatcherState)
    (batchSize : Nat) : MatcherState :=
  matcherRunExplicit sim st ((pendingLeadIds st).take batchSize)

/-! ### Candidate upsert lemmas (C4) -/

theorem mem_upsertCandidate_key {s : MatcherState} {sid fid conf : Nat}
    {reasons : List MatchReason} {c : MatchCandidateRow}
    (h : c ∈ (upsertCandidate s sid fid conf reasons).match_candidates) :
    (∃ c0 ∈ s.match_candidates,
      c0.source_lead_id = c.source_lead_id ∧ c0.fub_lead_id = c.fub_lead_id) ∨
    (c.source_lead_id = sid ∧ c.fub_lead_id = fid) := by
  unfold upsertCandidate at h
  split at h
  · simp only [List.mem_map] at h
    obtain ⟨c0, hc0, hfc⟩ := h
    by_cases hk : c0.source_lead_id = sid ∧ c0.fub_lead_id = fid
    · rw [if_pos hk] at hfc
      subst hfc
      exact Or.inl ⟨c0, hc0, rfl, rfl⟩
    · rw [if_neg hk] at hfc
      subst hfc
      exact Or.inl ⟨c0, hc0, rfl, rfl⟩
  · simp only [List.mem_cons] at h
    rcases h with hnew | hold
    · subst hnew
      exact Or.inr ⟨rfl, rfl⟩
    · exact Or.inl ⟨c, hold, rfl, rfl⟩

theorem upsertCandidate_provides (s : MatcherState) (sid fid conf : Nat)
    (reasons : List MatchReason) :
    ∃ c ∈ (upsertCandidate s sid fid conf reasons).match_candidates,
      c.source_lead_id = sid ∧ c.fub_lead_id = fid ∧
      c.confidence_score = conf := by
  unfold upsertCandidate
  split
  · rename_i hany
    rw [List.any_eq_true] at hany
    obtain ⟨c0, hc0, hk⟩ := hany
    simp only [decide_eq_true_eq] at hk
    refine ⟨{ c0 with confidence_score := conf, match_reasons := reasons },
      ?_, hk.1, hk.2, rfl⟩
    simp only [List.mem_map]
    exact ⟨c0, hc0, by rw [if_pos hk]⟩
  · exact ⟨_, List.mem_cons_self _ _, rfl, rfl, rfl⟩

theorem upsertCandidate_frame {s : MatcherState} {c : MatchCandidateRow}
    (hc : c ∈ s.match_candidates) {sid fid conf : Nat}
    {reasons : List MatchReason}
    (hne : ¬(c.source_lead_id = sid ∧ c.fub_lead_id = fid)) :
    c ∈ (upsertCandidate s sid fid conf reasons).match_candidates := by
  unfold upsertCandidate
  split
  · simp only [List.mem_map]
    exact ⟨c, hc, by rw [if_neg hne]⟩
  · exact List.mem_cons_of_mem _ hc

theorem mem_upsertCandidates_key {sid : Nat} {cs : List MatchResult} :
    ∀ {s : MatcherState} {c : MatchCandidateRow},
      c ∈ (upsertCandidates s sid cs).match_candidates →
      (∃ c0 ∈ s.match_candidates,
        c0.source_lead_id = c.source_lead_id ∧
        c0.fub_lead_id = c.fub_lead_id) ∨
      (c.source_lead_id = sid ∧ ∃ m ∈ cs, m.fub_lead_id = c.fub_lead_id) := by
  induction cs with
  | nil => intro s c h; exact Or.inl ⟨c, h, rfl, rfl⟩
  | cons m rest ih =>
    intro s c h
    rcases ih h with hold | hnew
    · obtain ⟨c0, hc0, hk1, hk2⟩ := hold
      rcases mem_upsertCandidate_key hc0 with ⟨c1, hc1, hj1, hj2⟩ | ⟨hj1, hj2⟩
      · exact Or.inl ⟨c1, hc1, hj1.trans hk1, hj2.trans hk2⟩
      · exact Or.inr ⟨hk1 ▸ hj1, m, List.mem_cons_self m rest, hj2.symm.trans hk2⟩
    · exact Or.inr ⟨hnew.1, hnew.2.elim fun m' hm' =>
        ⟨m', List.mem_cons_of_mem m hm'.1, hm'.2⟩⟩

theorem upsertCandidates_frame {sid : Nat} {cs : List MatchResult} :
    ∀ {s : MatcherState} {c : MatchCandidateRow}, c ∈ s.match_candidates →
      (∀ m ∈ cs, ¬(c.source_lead_id = sid ∧ c.fub_lead_id = m.fub_lead_id)) →
      c ∈ (upsertCandidates s sid cs).match_candidates := by
  induction cs with
  | nil => intro s c hc _; exact hc
  | cons m rest ih =>
    intro s c hc hne
    exact ih (upsertCandidate_frame hc (hne m (List.mem_cons_self m rest)))
      fun m' hm' => hne m' (List.mem_cons_of_mem m hm')

theorem upsertCandidates_provides {sid : Nat} {cs : List MatchResult}
    (hnodup : (cs.map fun c => c.fub_lead_id).Nodup) :
    ∀ {s : MatcherState}, ∀ m ∈ cs,
      ∃ c ∈ (upsertCandidates s sid cs).match_candidates,
        c.source_lead_id = sid ∧ c.fub_lead_id = m.fub_lead_id ∧
        c.confidence_score = m.confidence := by
  induction cs with
  | nil => intro s m hm; simp at hm
  | cons m0 rest ih =>
    intro s m hm
    simp only [List.map_cons, List.nodup_cons] at hnodup
    rcases List.mem_cons.mp hm with hm0 | hmrest
    · subst hm0
      obtain ⟨c, hcmem, h1, h2, h3⟩ := upsertCandidate_provides s sid
        m.fub_lead_id m.confidence [{ type := m.match_type, score := m.confidence }]
      refine ⟨c, ?_, h1, h2, h3⟩
      refine @upsertCandidates_frame sid rest _ _ hcmem ?_
      intro m' hm' hcon
      apply hnodup.1
      have hff : m.fub_lead_id = m'.fub_lead_id := h2.symm.trans hcon.2
      rw [hff]
      exact List.mem_map.mpr ⟨m', hm', rfl⟩
    · exact ih hnodup.2 m hmrest

theorem updateSourceLead_match_candidates (st : MatcherState) (sid : Nat)
    (f : SourceLeadRow → SourceLeadRow) :
    (updateSourceLead st sid f).match_candidates = st.match_candidates := rfl


theorem processMatches_candidates_of_no_auto (st : MatcherState)
    (sid orgId : Nat) (results : List MatchResult)
    (hfind : results.find?
      (fun m => decide (MATCH_THRESHOLDS.AUTO_MATCH ≤ m.confidence)) = none)
    (hnodup : ((bandFilter results).map fun m => m.fub_lead_id).Nodup) :
    (processMatches st sid results orgId).1.match_candidates =
      if 0 < (bandFilter results).length then
        (upsertCandidates st sid (bandFilter results)).match_candidates
      else st.match_candidates := by
  by_cases hempty : results.isEmpty
  · have hband : bandFilter results = [] := by
      rw [List.isEmpty_iff] at hempty
      subst hempty
      rfl
    rw [hband]
    unfold processMatches
    rw [if_pos hempty]
    rfl
  · unfold processMatches
    rw [if_neg hempty, hfind]
    by_cases hpos : 0 < (bandFilter results).length
    · rw [if_pos hpos]
      show (updateSourceLead (if ((bandFilter results).map
          fun c => c.fub_lead_id).Nodup then
            upsertCandidates st sid (bandFilter results) else st) sid
          _).match_candidates = _
      rw [if_pos hnodup, if_pos hpos]
      rfl
    · rw [if_neg hpos, if_neg hpos]
      rfl

/-- C4 (amended): when no scorer result reaches `AUTO_MATCH (0.90)`, the
Matcher upserts a `MatchCandidate` for **every** result with confidence in
`[REJECT_THRESHOLD (0.40), AUTO_MATCH (0.90))` — the band `[0.40, 0.60)` is
*not* dropped, because the code filters on `REJECT_THRESHOLD` where the
spec's tiering expects `REVIEW_THRESHOLD (0.60)` (declared in
`MATCH_THRESHOLDS` but never read).  Conversely, every candidate key present
afterwards either predates the call or stems from a result in
`[0.40, 0.90)`. -/
theorem C4_candidate_tiering (st : MatcherState) (sid orgId : Nat)
    (results : List MatchResult)
    (hlt : ∀ m ∈ results, m.confidence < MATCH_THRESHOLDS.AUTO_MATCH)
    (hnodup : ((bandFilter results).map fun m => m.fub_lead_id).Nodup) :
    (∀ m ∈ results, MATCH_THRESHOLDS.REJECT_THRESHOLD ≤ m.confidence →
      ∃ c ∈ (processMatches st sid results orgId).1.match_candidates,
        c.source_lead_id = sid ∧ c.fub_lead_id = m.fub_lead_id ∧
        c.confidence_score = m.confidence) ∧
    (∀ c ∈ (processMatches st sid results orgId).1.match_candidates,
      (∃ c0 ∈ st.match_candidates,
        c0.source_lead_id = c.source_lead_id ∧
        c0.fub_lead_id = c.fub_lead_id) ∨
      (c.source_lead_id = sid ∧ ∃ m ∈ results,
        m.fub_lead_id = c.fub_lead_id ∧
        MATCH_THRESHOLDS.REJECT_THRESHOLD ≤ m.confidence ∧
        m.confidence < MATCH_THRESHOLDS.AUTO_MATCH)) := by
  have hfind : results.find? (fun m =>
      decide (MATCH_THRESHOLDS.AUTO_MATCH ≤ m.confidence)) = none := by
    rw [List.find?_eq_none]
    intro m hm
    simp only [decide_eq_true_eq]
    exact Nat.not_le.mpr (hlt m hm)
  have hchar := processMatches_candidates_of_no_auto st sid orgId results hfind hnodup
  constructor
  · intro m hm hge
    have hmc : m ∈ bandFilter results := by
      refine List.mem_filter.mpr ⟨hm, ?_⟩
      simp only [Bool.and_eq_true, decide_eq_true_eq]
      exact ⟨hge, hlt m hm⟩
    have hpos : 0 < (bandFilter results).length :=
      List.length_pos.mpr (List.ne_nil_of_mem hmc)
    rw [hchar, if_pos hpos]
    exact upsertCandidates_provides hnodup m hmc
  · intro c hc
    rw [hchar] at hc
    by_cases hpos : 0 < (bandFilter results).length
    · rw [if_pos hpos] at hc
      rcases mem_upsertCandidates_key hc with hold | ⟨hs, m, hmmem, hmf⟩
      · exact Or.inl hold
      · have hmb := List.mem_filter.mp hmmem
        simp only [Bool.and_eq_true, decide_eq_true_eq] at hmb
        exact Or.inr ⟨hs, m, hmb.1, hmf, hmb.2.1, hmb.2.2⟩
    · rw [if_neg hpos] at hc
      exact Or.inl ⟨c, hc, rfl, rfl⟩

/-- Concrete state for the C4 counterexample: one pending lead, one CRM
lead, no candidates yet. -/
def tierState : MatcherState :=
  { source_leads :=
      [{ id := 1, organization_id := 1, email_normalized := none,
         phone_normalized := none,
         property_address_normalized := some (strChars "456 oak ave"),
         match_status := .pending, match_confidence := none }],
    fub_leads :=
      [{ id := 2, organization_id := 1, email_normalized := none,
         phone_normalized := none,
         address_normalized := some (strChars "456 oak avenue"),
         assigned_user_id := none }],
    agents := [], lead_matches := [], match_candidates := [],
    data_lineage := [], next_id := 100 }

/-- C4 counterexample: a single scorer result with confidence `0.50` — in
the claim's silently-dropped band `[0.40, 0.60)` — produces a pending
`MatchCandidate` row (and the lead is set to `review`), instead of being
dropped. -/
theorem C4_counterexample :
    ((processMatches tierState 1
        [{ fub_lead_id := 2, match_type := .address_fuzzy, confidence := 5000 }]
        1).1).match_candidates.map
      (fun c => (c.source_lead_id, c.fub_lead_id, c.confidence_score, c.status)) =
      [(1, 2, 5000, MCStatus.pending)] ∧
    ((processMatches tierState 1
        [{ fub_lead_id := 2, match_type := .address_fuzzy, confidence := 5000 }]
        1).1).source_leads.map (fun L => L.match_status) = [.review] := by
  constructor
  · decide
  · decide

/-- Witness for `C4_candidate_tiering` at the concrete `0.50` result. -/
theorem C4_witness :
    ∃ c ∈ ((processMatches tierState 1
        [{ fub_lead_id := 2, match_type := .address_fuzzy, confidence := 5000 }]
        1).1).match_candidates,
      c.source_lead_id = 1 ∧ c.fub_lead_id = 2 ∧ c.confidence_score = 5000 :=
  (C4_candidate_tiering tierState 1 1
      [{ fub_lead_id := 2, match_type := .address_fuzzy, confidence := 5000 }]
      (by decide) (by decide)).1
    { fub_lead_id := 2, match_type := .address_fuzzy, confidence := 5000 }
    (by decide) (by decide)

/-- C5 (amended): `approveCandidate` never reads `candidate.status`.  It
fails only when the candidate row does not exist, or when a `lead_matches`
row for the same `(source_lead_id, fub_lead_id)` pair already exists (the
unique-key insert error); in both failure cases nothing is written.  On any
*existing* candidate without such a prior match — pending, approved,
rejected or expired alike — it succeeds, inserting an `active`, `manual`
`Match` carrying the candidate's confidence. -/
theorem C5_approve_semantics :
    (∀ (st : MatcherState) (cid r : Nat),
      st.match_candidates.find? (fun c0 => decide (c0.id = cid)) = none →
      approveCandidate st cid r = (st, .error ())) ∧
    (∀ (st : MatcherState) (cid r : Nat) (c : MatchCandidateRow),
      st.match_candidates.find? (fun c0 => decide (c0.id = cid)) = some c →
      leadMatchPairExists st c.source_lead_id c.fub_lead_id = true →
      approveCandidate st cid r = (st, .error ())) ∧
    (∀ (st : MatcherState) (cid r : Nat) (c : MatchCandidateRow),
      st.match_candidates.find? (fun c0 => decide (c0.id = cid)) = some c →
      leadMatchPairExists st c.source_lead_id c.fub_lead_id = false →
      (approveCandidate st cid r).2 = .ok st.next_id ∧
      ∃ m ∈ (approveCandidate st cid r).1.lead_matches,
        m.id = st.next_id ∧ m.source_lead_id = c.source_lead_id ∧
        m.fub_lead_id = c.fub_lead_id ∧ m.match_type = .manual ∧
        m.match_confidence = c.confidence_score ∧ m.matched_by = .manual ∧
        m.matched_by_user_id = some r ∧ m.status = .active) := by
  refine ⟨?_, ?_, ?_⟩
  · intro st cid r hfind
    unfold approveCandidate
    rw [hfind]
  · intro st cid r c hfind hpair
    unfold approveCandidate
    rw [hfind]
    simp only [hpair, if_true]
  · intro st cid r c hfind hpair
    unfold approveCandidate
    rw [hfind]
    simp only [hpair, Bool.false_eq_true, if_false]
    exact ⟨by trivial, _, List.mem_cons_self _ _, rfl, rfl, rfl, rfl, rfl, rfl, rfl, rfl⟩

/-- Concrete state for the C5 counterexample: one candidate that was
already `rejected`. -/
def approveState : MatcherState :=
  { source_leads :=
      [{ id := 1, organization_id := 1, email_normalized := none,
         phone_normalized := none, property_address_normalized := none,
         match_status := .unmatched, match_confidence := none }],
    fub_leads :=
      [{ id := 2, organization_id := 1, email_normalized := none,
         phone_normalized := none, address_normalized := none,
         assigned_user_id := none }],
    agents := [], lead_matches := [],
    match_candidates :=
      [{ id := 50, source_lead_id := 1, fub_lead_id := 2,
         confidence_score := 7000, match_reasons := [],
         status := .rejected, reviewed_by := some 9, lead_match_id := none }],
    data_lineage := [], next_id := 100 }

/-- C5 counterexample: approving a candidate whose status is `rejected`
(not `pending`) *succeeds*: it returns a new match id, inserts an active
manual `Match`, marks the candidate `approved` and the lead `matched` —
instead of failing with `409` as the claim states. -/
theorem C5_counterexample :
    (approveCandidate approveState 50 7).2 = Except.ok 100 ∧
    (approveCandidate approveState 50 7).1.lead_matches.map
      (fun m => (m.source_lead_id, m.fub_lead_id, m.status, m.matched_by)) =
      [(1, 2, LMStatus.active, MatchedBy.manual)] ∧
    (approveCandidate approveState 50 7).1.source_leads.map
      (fun L => L.match_status) = [.matched] ∧
    (approveCandidate approveState 50 7).1.match_candidates.map
      (fun c => c.status) = [.approved] := by
  refine ⟨rfl, ?_, ?_, ?_⟩ <;> decide

/-- Witness for `C5_approve_semantics` at the concrete rejected
candidate. -/
theorem C5_witness :
    (approveCandidate approveState 50 7).2 = Except.ok 100 :=
  (C5_approve_semantics.2.2 approveState 50 7
    { id := 50, source_lead_id := 1, fub_lead_id := 2,
      confidence_score := 7000, match_reasons := [],
      status := .rejected, reviewed_by := some 9, lead_match_id := none }
    (by decide) (by decide)).1

/-! ### Frame lemmas: a matcher pass over one lead touches no other lead's
rows (C2) -/

theorem filter_map_eq_of {α : Type} (p : α → Bool) (g : α → α) (l : List α)
    (h : ∀ r ∈ l, g r = r ∨ (p r = false ∧ p (g r) = false)) :
    (l.map g).filter p = l.filter p := by
  induction l with
  | nil => rfl
  | cons a t ih =>
    have htail := ih fun r hr => h r (List.mem_cons_of_mem a hr)
    rcases h a (List.mem_cons_self a t) with hg | ⟨h1, h2⟩
    · simp only [List.map_cons, List.filter_cons, hg, htail]
    · simp only [List.map_cons, List.filter_cons, h1, h2, htail]
      rfl

theorem upsertCandidate_other_tables (s : MatcherState) (sid fid conf : Nat)
    (reasons : List MatchReason) :
    (upsertCandidate s sid fid conf reasons).source_leads = s.source_leads ∧
    (upsertCandidate s sid fid conf reasons).lead_matches = s.lead_matches ∧
    (upsertCandidate s sid fid conf reasons).data_lineage = s.data_lineage := by
  unfold upsertCandidate
  split <;> exact ⟨rfl, rfl, rfl⟩

theorem upsertCandidates_other_tables (sid : Nat) (cs : List MatchResult) :
    ∀ s : MatcherState,
      (upsertCandidates s sid cs).source_leads = s.source_leads ∧
      (upsertCandidates s sid cs).lead_matches = s.lead_matches ∧
      (upsertCandidates s sid cs).data_lineage = s.data_lineage := by
  induction cs with
  | nil => intro s; exact ⟨rfl, rfl, rfl⟩
  | cons m rest ih =>
    intro s
    have h1 := upsertCandidate_other_tables s sid m.fub_lead_id m.confidence
      [{ type := m.match_type, score := m.confidence }]
    have h2 := ih (upsertCandidate s sid m.fub_lead_id m.confidence
      [{ type := m.match_type, score := m.confidence }])
    exact ⟨h2.1.trans h1.1, h2.2.1.trans h1.2.1, h2.2.2.trans h1.2.2⟩

/-- What `processMatches` leaves untouched for every lead other than the
one it processes: that lead's `source_leads` row, the `lead_matches` rows
referencing it, and the `data_lineage` rows whose `source_id` is it. -/
def leadSlice (st : MatcherState) (lid : Nat) :
    List SourceLeadRow × List LeadMatchRow × List LineageRow :=
  (st.source_leads.filter fun r => decide (r.id = lid),
   st.lead_matches.filter fun m => decide (m.source_lead_id = lid),
   st.data_lineage.filter fun d => decide (d.source_id = lid))

theorem updateSourceLead_leadSlice (st : MatcherState) (sid : Nat)
    (f : SourceLeadRow → SourceLeadRow) (hf : ∀ r, (f r).id = r.id)
    {lid : Nat} (hne : sid ≠ lid) :
    leadSlice (updateSourceLead st sid f) lid = leadSlice st lid := by
  unfold leadSlice updateSourceLead
  simp only
  congr 1
  apply filter_map_eq_of
  intro r _
  by_cases hr : r.id = sid
  · right
    constructor
    · simp only [decide_eq_false_iff_not]
      omega
    · rw [if_pos hr]
      simp only [decide_eq_false_iff_not, hf]
      omega
  · left
    rw [if_neg hr]

theorem processMatches_leadSlice (st : MatcherState) (sid orgId : Nat)
    (results : List MatchResult) {lid : Nat} (hne : sid ≠ lid) :
    leadSlice (processMatches st sid results orgId).1 lid = leadSlice st lid := by
  unfold processMatches
  by_cases hempty : results.isEmpty
  · rw [if_pos hempty]
    exact updateSourceLead_leadSlice st sid
      (fun L => { L with match_status := .unmatched }) (fun r => rfl) hne
  · rw [if_neg hempty]
    cases hfind : results.find? fun m =>
        decide (MATCH_THRESHOLDS.AUTO_MATCH ≤ m.confidence) with
    | some autoMatch =>
      by_cases hpair : leadMatchPairExists st sid autoMatch.fub_lead_id
      · simp only [hpair, if_true]
      · simp only [hpair, Bool.false_eq_true, if_false]
        unfold leadSlice updateSourceLead
        simp only [Prod.mk.injEq]
        refine ⟨?_, ?_, ?_⟩
        · apply filter_map_eq_of
          intro r _
          by_cases hr : r.id = sid
          · right
            refine ⟨?_, ?_⟩
            · simp only [decide_eq_false_iff_not]
              omega
            · rw [if_pos hr]
              simp only [decide_eq_false_iff_not]
              omega
          · left
            rw [if_neg hr]
        · rw [List.filter_cons_of_neg (by simp only [decide_eq_true_eq]; exact hne)]
        · rw [List.filter_cons_of_neg (by simp only [decide_eq_true_eq]; exact hne)]
    | none =>
      by_cases hpos : 0 < (bandFilter results).length
      · rw [if_pos hpos]
        by_cases hnd : ((bandFilter results).map fun c => c.fub_lead_id).Nodup
        · rw [if_pos hnd]
          have hup := upsertCandidates_other_tables sid (bandFilter results) st
          have h1 : leadSlice (updateSourceLead
              (upsertCandidates st sid (bandFilter results)) sid
              (fun L =>
                { L with
                  match_status :=
                    if 1 < (bandFilter results).length then .multiple else .review,
                  match_confidence := some (((bandFilter results).map
                    fun c => c.confidence).foldl Nat.max 0) })) lid =
              leadSlice (upsertCandidates st sid (bandFilter results)) lid :=
            updateSourceLead_leadSlice _ sid (fun L =>
                { L with
                  match_status :=
                    if 1 < (bandFilter results).length then .multiple else .review,
                  match_confidence := some (((bandFilter results).map
                    fun c => c.confidence).foldl Nat.max 0) }) (fun r => rfl) hne
          have h2 : leadSlice (upsertCandidates st sid (bandFilter results)) lid =
              leadSlice st lid := by
            unfold leadSlice
            rw [hup.1, hup.2.1, hup.2.2]
          exact h1.trans h2
        · rw [if_neg hnd]
          exact updateSourceLead_leadSlice st sid (fun L =>
                { L with
                  match_status :=
                    if 1 < (bandFilter results).length then .multiple else .review,
                  match_confidence := some (((bandFilter results).map
                    fun c => c.confidence).foldl Nat.max 0) }) (fun r => rfl) hne
      · rw [if_neg hpos]
        exact updateSourceLead_leadSlice st sid
          (fun L => { L with match_status := .unmatched }) (fun r => rfl) hne

theorem runMatcherOnLead_leadSlice (sim : List Nat → List Nat → Nat)
    (st : MatcherState) (sid : Nat) {lid : Nat} (hne : sid ≠ lid) :
    leadSlice (runMatcherOnLead sim st sid) lid = leadSlice st lid := by
  unfold runMatcherOnLead
  cases st.source_leads.find? fun L => decide (L.id = sid) with
  | none => rfl
  | some lead => exact processMatches_leadSlice st sid _ _ hne

theorem matcherRunExplicit_leadSlice (sim : List Nat → List Nat → Nat)
    (ids : List Nat) {lid : Nat} (hids : ∀ i ∈ ids, i ≠ lid) :
    ∀ st : MatcherState,
      leadSlice (matcherRunExplicit sim st ids) lid = leadSlice st lid := by
  induction ids with
  | nil => intro st; rfl
  | cons i rest ih =>
    intro st
    have hstep := runMatcherOnLead_leadSlice sim st i
      (hids i (List.mem_cons_self i rest))
    have htail := ih (fun j hj => hids j (List.mem_cons_of_mem i hj))
      (runMatcherOnLead sim st i)
    exact htail.trans hstep

theorem pending_id_ne {st : MatcherState} {L : SourceLeadRow}
    (hids : (st.source_leads.map fun r => r.id).Nodup)
    (hmem : L ∈ st.source_leads) (hL : L.match_status = .matched) :
    ∀ i ∈ pendingLeadIds st, i ≠ L.id := by
  intro i hi hcon
  unfold pendingLeadIds at hi
  obtain ⟨r, hr, hrid⟩ := List.mem_map.mp hi
  have hrf := List.mem_filter.mp hr
  have hreq : r = L :=
    List.inj_on_of_nodup_map hids hrf.1 hmem (by rw [hrid, hcon])
  rw [hreq] at hrf
  rw [hL] at hrf
  simp at hrf

/-- C2 (amended): the no-op guarantee holds for the matcher entry the
pipeline itself uses — cron/organization mode, which selects only leads
with `match_status = 'pending'`.  For a lead already `matched`, such a run
leaves the lead's row, the `lead_matches` rows referencing it, and the
`data_lineage` rows sourced at it unchanged.  (A run given an explicit
`source_lead_ids` list re-processes a matched lead and can alter it — see
the counterexample.) -/
theorem C2_matcher_cron_noop (sim : List Nat → List Nat → Nat)
    (st : MatcherState) (L : SourceLeadRow) (bs : Nat)
    (hids : (st.source_leads.map fun r => r.id).Nodup)
    (hmem : L ∈ st.source_leads) (hL : L.match_status = .matched) :
    L ∈ (matcherRunCron sim st bs).source_leads ∧
    leadSlice (matcherRunCron sim st bs) L.id = leadSlice st L.id := by
  have hslice : leadSlice (matcherRunCron sim st bs) L.id = leadSlice st L.id := by
    unfold matcherRunCron
    apply matcherRunExplicit_leadSlice
    intro i hi
    exact pending_id_ne hids hmem hL i ((List.take_sublist _ _).subset hi)
  refine ⟨?_, hslice⟩
  have hfleft : L ∈ (matcherRunCron sim st bs).source_leads.filter
      fun r => decide (r.id = L.id) := by
    have h1 : (matcherRunCron sim st bs).source_leads.filter
        (fun r => decide (r.id = L.id)) =
        st.source_leads.filter fun r => decide (r.id = L.id) :=
      congrArg (fun t => t.1) hslice
    rw [h1]
    exact List.mem_filter.mpr ⟨hmem, by simp⟩
  exact (List.mem_filter.mp hfleft).1

/-- Constant similarity `0.70`, the external pg_trgm black box for the C1
and C2 traces. -/
def matcherSim : List Nat → List Nat → Nat := fun _ _ => 7000

/-- Initial state of the C1/C2 traces: one pending lead whose address is
`0.70`-similar to the single CRM lead; nothing matched yet. -/
def reState : MatcherState :=
  { source_leads :=
      [{ id := 1, organization_id := 1, email_normalized := none,
         phone_normalized := none,
         property_address_normalized := some (strChars "456 oak ave"),
         match_status := .pending, match_confidence := none }],
    fub_leads :=
      [{ id := 2, organization_id := 1, email_normalized := none,
         phone_normalized := none,
         address_normalized := some (strChars "456 oak avenue"),
         assigned_user_id := none }],
    agents := [], lead_matches := [], match_candidates := [],
    data_lineage := [], next_id := 100 }

/-- After the first matcher pass: one pending candidate (id 100), lead in
`review`. -/
def reState1 : MatcherState := matcherRunExplicit matcherSim reState [1]

/-- After approving candidate 100: one active manual match (id 101), lead
`matched`. -/
def reState2 : MatcherState := (approveCandidate reState1 100 9).1

/-- After re-running the matcher on the already-matched lead via an
explicit `source_lead_ids` list. -/
def reState3 : MatcherState := matcherRunExplicit matcherSim reState2 [1]

/-- C2 counterexample: `reState2` has the lead `matched` with one active
match, yet re-running the matcher on that lead (explicit-ids entry, which
does not filter on `match_status`) flips the lead back to `review` — the
lead row is *not* unchanged. -/
theorem C2_counterexample :
    reState2.source_leads.map (fun L => L.match_status) = [.matched] ∧
    reState2.lead_matches.map (fun m => (m.source_lead_id, m.status)) =
      [(1, LMStatus.active)] ∧
    reState3.source_leads.map (fun L => L.match_status) = [.review] ∧
    reState3.source_leads ≠ reState2.source_leads := by
  refine ⟨?_, ?_, ?_, ?_⟩ <;> decide

/-- Witness for `C2_matcher_cron_noop` at the concrete matched state
`reState2`. -/
theorem C2_witness :
    leadSlice (matcherRunCron matcherSim reState2 100) 1 =
      leadSlice reState2 1 :=
  (C2_matcher_cron_noop matcherSim reState2
    { id := 1, organization_id := 1, email_normalized := none,
      phone_normalized := none,
      property_address_normalized := some (strChars "456 oak ave"),
      match_status := .matched, match_confidence := some 7000 }
    100 (by decide) (by decide) (by decide)).2

/-! ## C1: the matched/active-match invariant

The pipeline operations over `MatcherState`: a `lead-matcher` invocation
(explicit `source_lead_ids`) and a Review-Resolver approval.  `Reachable`
closes them reflexively-transitively from a start state. -/

/-- One pipeline operation, exactly as the edge functions expose them. -/
inductive PipelineStep (sim : List Nat → List Nat → Nat) :
    MatcherState → MatcherState → Prop
  | matcher (st : MatcherState) (ids : List Nat) :
      PipelineStep sim st (matcherRunExplicit sim st ids)
  | approve (st : MatcherState) (cid r : Nat) :
      PipelineStep sim st (approveCandidate st cid r).1

/-- States reachable by pipeline operations. -/
def PipelineReachable (sim : List Nat → List Nat → Nat)
    (st0 st : MatcherState) : Prop :=
  Relation.ReflTransGen (PipelineStep sim) st0 st

/-- A start state: no matches, no candidates, every lead `pending`,
distinct lead ids. -/
def InitialMatcherState (st : MatcherState) : Prop :=
  st.lead_matches = [] ∧ st.match_candidates = [] ∧
  (∀ L ∈ st.source_leads, L.match_status = .pending) ∧
  (st.source_leads.map fun r => r.id).Nodup

/-- The `lead_matches` rows referencing one canonical lead. -/
def matchesFor (st : MatcherState) (lid : Nat) : List LeadMatchRow :=
  st.lead_matches.filter fun m => decide (m.source_lead_id = lid)

/-- The invariant claimed by C1, phrased over active matches. -/
def C1Prop (st : MatcherState) : Prop :=
  ∀ L ∈ st.source_leads,
    (st.lead_matches.filter fun m =>
      decide (m.source_lead_id = L.id ∧ m.status = LMStatus.active)).length ≤ 1 ∧
    (L.match_status = .matched ↔
      (st.lead_matches.filter fun m =>
        decide (m.source_lead_id = L.id ∧ m.status = LMStatus.active)).length = 1)

/-- The strengthened inductive invariant. -/
def MatcherInv (st : MatcherState) : Prop :=
  (st.source_leads.map fun r => r.id).Nodup ∧
  (∀ m ∈ st.lead_matches, m.status = LMStatus.active) ∧
  (∀ L ∈ st.source_leads,
    (matchesFor st L.id).length = if L.match_status = .matched then 1 else 0) ∧
  (∀ c ∈ st.match_candidates, c.status = .pending →
    ∃ L ∈ st.source_leads, L.id = c.source_lead_id ∧
      (L.match_status = .review ∨ L.match_status = .multiple)) ∧
  (∀ L ∈ st.source_leads, L.match_status = .pending →
    ∀ c ∈ st.match_candidates, c.source_lead_id ≠ L.id)

/-- The guarded pipeline: the matcher only visits leads that are still
`pending` (what the cron/organization entry enforces) and approval demands
the loaded candidate be `pending` (the spec's 409 guard). -/
inductive GuardedStep (sim : List Nat → List Nat → Nat) :
    MatcherState → MatcherState → Prop
  | matcher (st : MatcherState) (ids : List Nat) (hnd : ids.Nodup)
      (hpend : ∀ i ∈ ids, ∃ L ∈ st.source_leads,
        L.id = i ∧ L.match_status = .pending) :
      GuardedStep sim st (matcherRunExplicit sim st ids)
  | approve (st : MatcherState) (cid r : Nat) (c : MatchCandidateRow)
      (hfind : st.match_candidates.find?
        (fun c0 => decide (c0.id = cid)) = some c)
      (hpend : c.status = .pending) :
      GuardedStep sim st (approveCandidate st cid r).1

/-- States reachable by guarded pipeline operations. -/
def GuardedReachable (sim : List Nat → List Nat → Nat)
    (st0 st : MatcherState) : Prop :=
  Relation.ReflTransGen (GuardedStep sim) st0 st

/-- C1 counterexample: from an initial state, run the matcher on lead 1
(review candidate), approve it (active match, lead `matched`), then run
the matcher again on lead 1 via explicit ids.  The result is a reachable
state with exactly one active match for lead 1 while the lead's
`match_status` is `review` — the claimed equivalence
`matched ⇔ exactly one active match` fails. -/
theorem C1_counterexample :
    InitialMatcherState reState ∧
    PipelineReachable matcherSim reState reState3 ∧
    (reState3.lead_matches.filter fun m =>
      decide (m.source_lead_id = 1 ∧ m.status = LMStatus.active)).length = 1 ∧
    ¬ C1Prop reState3 := by
  refine ⟨by unfold InitialMatcherState; decide, ?_, by decide,
    by unfold C1Prop; decide⟩
  exact Relation.ReflTransGen.head (PipelineStep.matcher reState [1])
    (Relation.ReflTransGen.head (PipelineStep.approve reState1 100 9)
      (Relation.ReflTransGen.single (PipelineStep.matcher reState2 [1])))

theorem updateSourceLead_lead_matches (st : MatcherState) (sid : Nat)
    (f : SourceLeadRow → SourceLeadRow) :
    (updateSourceLead st sid f).lead_matches = st.lead_matches := rfl

theorem updateSourceLead_ids (st : MatcherState) (sid : Nat)
    (f : SourceLeadRow → SourceLeadRow) (hf : ∀ r, (f r).id = r.id) :
    (updateSourceLead st sid f).source_leads.map (fun r => r.id) =
      st.source_leads.map fun r => r.id := by
  unfold updateSourceLead
  simp only [List.map_map]
  apply List.map_congr_left
  intro r _
  by_cases hr : r.id = sid
  · simp only [Function.comp_apply, if_pos hr, hf]
  · simp only [Function.comp_apply, if_neg hr]

theorem mem_updateSourceLead {st : MatcherState} {sid : Nat}
    {f : SourceLeadRow → SourceLeadRow} {L' : SourceLeadRow}
    (h : L' ∈ (updateSourceLead st sid f).source_leads) :
    ∃ L0 ∈ st.source_leads, (if L0.id = sid then f L0 else L0) = L' :=
  List.mem_map.mp h

theorem updateSourceLead_mem {st : MatcherState} {sid : Nat}
    {f : SourceLeadRow → SourceLeadRow} {L0 : SourceLeadRow}
    (h : L0 ∈ st.source_leads) :
    (if L0.id = sid then f L0 else L0) ∈ (updateSourceLead st sid f).source_leads :=
  List.mem_map.mpr ⟨L0, h, rfl⟩

theorem matchesFor_updateSourceLead (st : MatcherState) (sid : Nat)
    (f : SourceLeadRow → SourceLeadRow) (lid : Nat) :
    matchesFor (updateSourceLead st sid f) lid = matchesFor st lid := rfl

theorem matchesFor_upsertCandidates (st : MatcherState) (sid : Nat)
    (cs : List MatchResult) (lid : Nat) :
    matchesFor (upsertCandidates st sid cs) lid = matchesFor st lid := by
  unfold matchesFor
  rw [(upsertCandidates_other_tables sid cs st).2.1]

theorem find?_id_of_nodup {l : List SourceLeadRow}
    (hids : (l.map fun r => r.id).Nodup) {L : SourceLeadRow} (hmem : L ∈ l) :
    l.find? (fun r => decide (r.id = L.id)) = some L := by
  cases hf : l.find? fun r => decide (r.id = L.id) with
  | none =>
    rw [List.find?_eq_none] at hf
    exact absurd (by simp : decide (L.id = L.id) = true) (hf L hmem)
  | some Lf =>
    have h1 : Lf ∈ l := List.mem_of_find?_eq_some hf
    have h2 : Lf.id = L.id := by simpa using List.find?_some hf
    rw [List.inj_on_of_nodup_map hids h1 hmem h2]

theorem mem_upsertCandidate_origin {s : MatcherState} {sid fid conf : Nat}
    {reasons : List MatchReason} {c : MatchCandidateRow}
    (h : c ∈ (upsertCandidate s sid fid conf reasons).match_candidates) :
    (∃ c0 ∈ s.match_candidates,
      c0.source_lead_id = c.source_lead_id ∧ c0.status = c.status) ∨
    (c.source_lead_id = sid ∧ c.status = .pending) := by
  unfold upsertCandidate at h
  split at h
  · simp only [List.mem_map] at h
    obtain ⟨c0, hc0, hfc⟩ := h
    by_cases hk : c0.source_lead_id = sid ∧ c0.fub_lead_id = fid
    · rw [if_pos hk] at hfc
      subst hfc
      exact Or.inl ⟨c0, hc0, rfl, rfl⟩
    · rw [if_neg hk] at hfc
      subst hfc
      exact Or.inl ⟨c0, hc0, rfl, rfl⟩
  · simp only [List.mem_cons] at h
    rcases h with hnew | hold
    · subst hnew
      exact Or.inr ⟨rfl, rfl⟩
    · exact Or.inl ⟨c, hold, rfl, rfl⟩

theorem mem_upsertCandidates_origin {sid : Nat} {cs : List MatchResult} :
    ∀ {s : MatcherState} {c : MatchCandidateRow},
      c ∈ (upsertCandidates s sid cs).match_candidates →
      (∃ c0 ∈ s.match_candidates,
        c0.source_lead_id = c.source_lead_id ∧ c0.status = c.status) ∨
      (c.source_lead_id = sid ∧ c.status = .pending) := by
  induction cs with
  | nil => intro s c h; exact Or.inl ⟨c, h, rfl, rfl⟩
  | cons m rest ih =>
    intro s c h
    rcases ih h with hold | hnew
    · obtain ⟨c0, hc0, hk1, hk2⟩ := hold
      rcases mem_upsertCandidate_origin hc0 with ⟨c1, hc1, hj1, hj2⟩ | ⟨hj1, hj2⟩
      · exact Or.inl ⟨c1, hc1, hj1.trans hk1, hj2.trans hk2⟩
      · exact Or.inr ⟨hk1 ▸ hj1, hk2 ▸ hj2⟩
    · exact Or.inr hnew

theorem inv_update_general (st st1 : MatcherState) (sid : Nat)
    (f : SourceLeadRow → SourceLeadRow) (hInv : MatcherInv st)
    (hL : ∃ L ∈ st.source_leads, L.id = sid ∧ L.match_status = .pending)
    (hsl : st1.source_leads = st.source_leads)
    (hlm : st1.lead_matches = st.lead_matches)
    (hcor : ∀ c' ∈ st1.match_candidates,
      (∃ c0 ∈ st.match_candidates,
        c0.source_lead_id = c'.source_lead_id ∧ c0.status = c'.status) ∨
      (c'.source_lead_id = sid ∧ c'.status = .pending))
    (hfid : ∀ r, (f r).id = r.id)
    (hfnm : ∀ r, (f r).match_status ≠ .matched)
    (hfnp : ∀ r, (f r).match_status ≠ .pending)
    (hfrev : (∀ c' ∈ st1.match_candidates,
        c'.status = .pending → c'.source_lead_id ≠ sid) ∨
      (∀ r, (f r).match_status = .review ∨ (f r).match_status = .multiple)) :
    MatcherInv (updateSourceLead st1 sid f) := by
  obtain ⟨L, hLmem, hLid, hLpend⟩ := hL
  obtain ⟨hids, hact, hcount, hc4, hc5⟩ := hInv
  have hcnt0 : (matchesFor st sid).length = 0 := by
    have h := hcount L hLmem
    rw [hLpend, hLid] at h
    simpa using h
  refine ⟨?_, ?_, ?_, ?_, ?_⟩
  · rw [updateSourceLead_ids _ _ _ hfid, hsl]
    exact hids
  · intro m hm
    rw [updateSourceLead_lead_matches, hlm] at hm
    exact hact m hm
  · intro L' hL'
    obtain ⟨L0, hL0, hite⟩ := mem_updateSourceLead hL'
    have hmf : matchesFor (updateSourceLead st1 sid f) L'.id = matchesFor st L'.id := by
      rw [matchesFor_updateSourceLead]
      unfold matchesFor
      rw [hlm]
    rw [hmf]
    rw [hsl] at hL0
    by_cases h0 : L0.id = sid
    · rw [if_pos h0] at hite
      have hL0L : L0 = L := List.inj_on_of_nodup_map hids hL0 hLmem (by rw [h0, hLid])
      have hid' : L'.id = sid := by rw [← hite, hfid, h0]
      rw [hid', if_neg (by rw [← hite]; exact hfnm L0)]
      exact hcnt0
    · rw [if_neg h0] at hite
      subst hite
      exact hcount L0 hL0
  · intro c' hc' hpend'
    rw [updateSourceLead_match_candidates] at hc'
    rcases hcor c' hc' with ⟨c0, hc0, hsrc, hstat⟩ | ⟨hsrc, _⟩
    · have hc0pend : c0.status = .pending := hstat.trans hpend'
      obtain ⟨L1, hL1, hL1id, hL1st⟩ := hc4 c0 hc0 hc0pend
      have hL1ne : L1.id ≠ sid := by
        intro hcon
        have : L1 = L := List.inj_on_of_nodup_map hids hL1 hLmem (by rw [hcon, hLid])
        rw [this, hLpend] at hL1st
        rcases hL1st with h | h <;> simp at h
      refine ⟨L1, ?_, by rw [hL1id, hsrc], hL1st⟩
      have := @updateSourceLead_mem st1 sid f L1 (by rw [hsl]; exact hL1)
      rwa [if_neg hL1ne] at this
    · rcases hfrev with hleft | hright
      · exact absurd hsrc (hleft c' hc' hpend')
      · refine ⟨f L, ?_, by rw [hfid, hLid, hsrc], hright L⟩
        have := @updateSourceLead_mem st1 sid f L (by rw [hsl]; exact hLmem)
        rwa [if_pos hLid] at this
  · intro L' hL' hLpend' c' hc'
    rw [updateSourceLead_match_candidates] at hc'
    obtain ⟨L0, hL0, hite⟩ := mem_updateSourceLead hL'
    rw [hsl] at hL0
    by_cases h0 : L0.id = sid
    · rw [if_pos h0] at hite
      rw [← hite] at hLpend'
      exact absurd hLpend' (hfnp L0)
    · rw [if_neg h0] at hite
      subst hite
      rcases hcor c' hc' with ⟨c0, hc0, hsrc, _⟩ | ⟨hsrc, _⟩
      · rw [← hsrc]
        exact hc5 L0 hL0 hLpend' c0 hc0
      · rw [hsrc]
        exact fun hcon => h0 hcon.symm

theorem filter_matches_cons (nm : LeadMatchRow) (l : List LeadMatchRow)
    (lid : Nat) :
    (nm :: l).filter (fun m => decide (m.source_lead_id = lid)) =
      if nm.source_lead_id = lid
      then nm :: l.filter (fun m => decide (m.source_lead_id = lid))
      else l.filter (fun m => decide (m.source_lead_id = lid)) := by
  rw [List.filter_cons]
  by_cases h : nm.source_lead_id = lid
  · rw [if_pos (by simp [h]), if_pos h]
  · rw [if_neg (by simp [h]), if_neg h]

theorem inv_auto (st st1 : MatcherState) (sid : Nat) (nm : LeadMatchRow)
    (conf : Nat) (hInv : MatcherInv st)
    (hL : ∃ L ∈ st.source_leads, L.id = sid ∧ L.match_status = .pending)
    (hnm1 : nm.source_lead_id = sid) (hnm2 : nm.status = .active)
    (hsl : st1.source_leads = (updateSourceLead st sid fun r =>
      { r with match_status := MatchStatus.matched,
               match_confidence := some conf }).source_leads)
    (hlm : st1.lead_matches = nm :: st.lead_matches)
    (hmc : st1.match_candidates = st.match_candidates) :
    MatcherInv st1 := by
  obtain ⟨L, hLmem, hLid, hLpend⟩ := hL
  obtain ⟨hids, hact, hcount, hc4, hc5⟩ := hInv
  have hcnt0 : (matchesFor st sid).length = 0 := by
    have h := hcount L hLmem
    rw [hLpend, hLid] at h
    simpa using h
  have hmf : ∀ lid, matchesFor st1 lid =
      if nm.source_lead_id = lid then nm :: matchesFor st lid
      else matchesFor st lid := by
    intro lid
    unfold matchesFor
    rw [hlm, filter_matches_cons]
  refine ⟨?_, ?_, ?_, ?_, ?_⟩
  · rw [hsl, updateSourceLead_ids st sid
      (fun r => { r with match_status := MatchStatus.matched,
                         match_confidence := some conf }) (fun r => rfl)]
    exact hids
  · intro m hm
    rw [hlm] at hm
    rcases List.mem_cons.mp hm with h | h
    · rw [h]; exact hnm2
    · exact hact m h
  · intro L' hL'
    rw [hsl] at hL'
    obtain ⟨L0, hL0, hite⟩ := mem_updateSourceLead hL'
    rw [hmf]
    by_cases h0 : L0.id = sid
    · rw [if_pos h0] at hite
      have hid' : L'.id = sid := by rw [← hite, h0]
      have hst' : L'.match_status = .matched := by rw [← hite]
      rw [hid', if_pos (hnm1.trans rfl), hst', if_pos rfl,
        List.length_cons, hcnt0]
    · rw [if_neg h0] at hite
      subst hite
      rw [if_neg (fun hcon => h0 ((hnm1.symm.trans hcon).symm))]
      exact hcount L0 hL0
  · intro c' hc' hpend'
    rw [hmc] at hc'
    obtain ⟨L1, hL1, hL1id, hL1st⟩ := hc4 c' hc' hpend'
    have hL1ne : L1.id ≠ sid := by
      intro hcon
      have : L1 = L := List.inj_on_of_nodup_map hids hL1 hLmem (by rw [hcon, hLid])
      rw [this, hLpend] at hL1st
      rcases hL1st with h | h <;> simp at h
    refine ⟨L1, ?_, hL1id, hL1st⟩
    rw [hsl]
    have := @updateSourceLead_mem st sid
      (fun r => { r with match_status := MatchStatus.matched,
                         match_confidence := some conf }) L1 hL1
    rwa [if_neg hL1ne] at this
  · intro L' hL' hLpend' c' hc'
    rw [hsl] at hL'
    rw [hmc] at hc'
    obtain ⟨L0, hL0, hite⟩ := mem_updateSourceLead hL'
    by_cases h0 : L0.id = sid
    · rw [if_pos h0] at hite
      rw [← hite] at hLpend'
      exact absurd hLpend' (by intro h; exact MatchStatus.noConfusion h)
    · rw [if_neg h0] at hite
      subst hite
      exact hc5 L0 hL0 hLpend' c' hc'

theorem ite_status_not_matched (p : Prop) [Decidable p] :
    (if p then MatchStatus.multiple else MatchStatus.review) ≠
      MatchStatus.matched := by
  split <;> decide

theorem ite_status_not_pending (p : Prop) [Decidable p] :
    (if p then MatchStatus.multiple else MatchStatus.review) ≠
      MatchStatus.pending := by
  split <;> decide

theorem ite_status_review_or_multiple (p : Prop) [Decidable p] :
    (if p then MatchStatus.multiple else MatchStatus.review) =
      MatchStatus.review ∨
    (if p then MatchStatus.multiple else MatchStatus.review) =
      MatchStatus.multiple := by
  split
  · exact Or.inr rfl
  · exact Or.inl rfl

theorem processMatches_inv (st : MatcherState) (sid orgId : Nat)
    (results : List MatchResult) (hInv : MatcherInv st)
    (hL : ∃ L ∈ st.source_leads, L.id = sid ∧ L.match_status = .pending) :
    MatcherInv (processMatches st sid results orgId).1 := by
  have hnosrc : ∀ c' ∈ st.match_candidates, c'.status = .pending →
      c'.source_lead_id ≠ sid := by
    obtain ⟨L, hLmem, hLid, hLpend⟩ := hL
    intro c' hc' _
    rw [← hLid]
    exact hInv.2.2.2.2 L hLmem hLpend c' hc'
  unfold processMatches
  by_cases hempty : results.isEmpty
  · rw [if_pos hempty]
    exact inv_update_general st st sid
      (fun L => { L with match_status := MatchStatus.unmatched }) hInv hL rfl rfl
      (fun c' h => Or.inl ⟨c', h, rfl, rfl⟩) (fun r => rfl)
      (fun r h => MatchStatus.noConfusion h)
      (fun r h => MatchStatus.noConfusion h) (Or.inl hnosrc)
  · rw [if_neg hempty]
    split
    · rename_i am hfind
      by_cases hex : leadMatchPairExists st sid am.fub_lead_id = true
      · rw [if_pos hex]
        exact hInv
      · rw [if_neg hex]
        exact inv_auto st _ sid
          { id := st.next_id, source_lead_id := sid,
            fub_lead_id := am.fub_lead_id, match_type := am.match_type,
            match_confidence := am.confidence, matched_by := .system,
            matched_by_user_id := none,
            attributed_agent_id := (resolveAttribution st am.fub_lead_id).1,
            attributed_team_id := (resolveAttribution st am.fub_lead_id).2,
            status := .active }
          am.confidence hInv hL rfl rfl rfl rfl rfl
    · rename_i hfind
      by_cases hpos : 0 < (bandFilter results).length
      · rw [if_pos hpos]
        show MatcherInv (updateSourceLead
          (if ((bandFilter results).map fun c => c.fub_lead_id).Nodup then
            upsertCandidates st sid (bandFilter results)
          else st) sid _)
        by_cases hnd : ((bandFilter results).map fun c => c.fub_lead_id).Nodup
        · rw [if_pos hnd]
          exact inv_update_general st
            (upsertCandidates st sid (bandFilter results)) sid
            (fun L => { L with
              match_status := if 1 < (bandFilter results).length then
                MatchStatus.multiple else MatchStatus.review,
              match_confidence := some (((bandFilter results).map
                fun c => c.confidence).foldl Nat.max 0) })
            hInv hL
            (upsertCandidates_other_tables sid (bandFilter results) st).1
            (upsertCandidates_other_tables sid (bandFilter results) st).2.1
            (fun c' h => mem_upsertCandidates_origin h)
            (fun r => rfl)
            (fun r => ite_status_not_matched _)
            (fun r => ite_status_not_pending _)
            (Or.inr fun r => ite_status_review_or_multiple _)
        · rw [if_neg hnd]
          exact inv_update_general st st sid
            (fun L => { L with
              match_status := if 1 < (bandFilter results).length then
                MatchStatus.multiple else MatchStatus.review,
              match_confidence := some (((bandFilter results).map
                fun c => c.confidence).foldl Nat.max 0) })
            hInv hL rfl rfl
            (fun c' h => Or.inl ⟨c', h, rfl, rfl⟩)
            (fun r => rfl)
            (fun r => ite_status_not_matched _)
            (fun r => ite_status_not_pending _)
            (Or.inr fun r => ite_status_review_or_multiple _)
      · rw [if_neg hpos]
        exact inv_update_general st st sid
          (fun L => { L with match_status := MatchStatus.unmatched }) hInv hL
          rfl rfl (fun c' h => Or.inl ⟨c', h, rfl, rfl⟩) (fun r => rfl)
          (fun r h => MatchStatus.noConfusion h)
          (fun r h => MatchStatus.noConfusion h) (Or.inl hnosrc)

theorem runMatcherOnLead_inv (sim : List Nat → List Nat → Nat)
    (st : MatcherState) (sid : Nat) (hInv : MatcherInv st)
    (hL : ∃ L ∈ st.source_leads, L.id = sid ∧ L.match_status = .pending) :
    MatcherInv (runMatcherOnLead sim st sid) := by
  unfold runMatcherOnLead
  split
  · exact hInv
  · rename_i lead hfind
    exact processMatches_inv st sid lead.organization_id
      (find_fub_matches sim lead st.fub_leads 5) hInv hL

theorem mem_of_slice {st st1 : MatcherState} {L : SourceLeadRow}
    (hsl : leadSlice st1 L.id = leadSlice st L.id)
    (hmem : L ∈ st.source_leads) : L ∈ st1.source_leads := by
  have h1 : L ∈ (leadSlice st L.id).1 := List.mem_filter.mpr ⟨hmem, by simp⟩
  rw [← hsl] at h1
  exact (List.mem_filter.mp h1).1

theorem matcherRunExplicit_inv (sim : List Nat → List Nat → Nat)
    (ids : List Nat) :
    ∀ st : MatcherState, ids.Nodup → MatcherInv st →
      (∀ i ∈ ids, ∃ L ∈ st.source_leads,
        L.id = i ∧ L.match_status = .pending) →
      MatcherInv (matcherRunExplicit sim st ids) := by
  induction ids with
  | nil => intro st _ hInv _; exact hInv
  | cons i rest ih =>
    intro st hnd hInv hpend
    rw [List.nodup_cons] at hnd
    have hstep := runMatcherOnLead_inv sim st i hInv
      (hpend i (List.mem_cons_self i rest))
    show MatcherInv (matcherRunExplicit sim (runMatcherOnLead sim st i) rest)
    apply ih (runMatcherOnLead sim st i) hnd.2 hstep
    intro j hj
    obtain ⟨L, hLmem, hLid, hLpend⟩ := hpend j (List.mem_cons_of_mem i hj)
    have hij : i ≠ L.id := by
      rw [hLid]
      exact fun hcon => hnd.1 (hcon ▸ hj)
    exact ⟨L, mem_of_slice (runMatcherOnLead_leadSlice sim st i hij) hLmem,
      hLid, hLpend⟩

theorem inv_approve (st st1 : MatcherState) (c : MatchCandidateRow)
    (hInv : MatcherInv st)
    (hcin : c ∈ st.match_candidates) (hcpend : c.status = .pending)
    (nm : LeadMatchRow)
    (hnm1 : nm.source_lead_id = c.source_lead_id) (hnm2 : nm.status = .active)
    (hsl : st1.source_leads = (updateSourceLead st c.source_lead_id fun L =>
      { L with match_status := MatchStatus.matched,
               match_confidence := some c.confidence_score }).source_leads)
    (hlm : st1.lead_matches = nm :: st.lead_matches)
    (hmc : ∀ c' ∈ st1.match_candidates, c'.status = .pending →
      ∃ c0 ∈ st.match_candidates, c0.source_lead_id = c'.source_lead_id ∧
        c0.status = .pending ∧ c0.source_lead_id ≠ c.source_lead_id)
    (hms : ∀ c' ∈ st1.match_candidates,
      ∃ c0 ∈ st.match_candidates, c0.source_lead_id = c'.source_lead_id) :
    MatcherInv st1 := by
  obtain ⟨hids, hact, hcount, hc4, hc5⟩ := hInv
  obtain ⟨L, hLmem, hLeq, hLrm⟩ := hc4 c hcin hcpend
  have hLnm : L.match_status ≠ MatchStatus.matched := by
    intro hcon
    rcases hLrm with h1 | h1 <;> rw [h1] at hcon <;>
      exact MatchStatus.noConfusion hcon
  have hcnt0 : (matchesFor st c.source_lead_id).length = 0 := by
    have h := hcount L hLmem
    rw [hLeq, if_neg hLnm] at h
    exact h
  have hmf : ∀ lid, matchesFor st1 lid =
      if nm.source_lead_id = lid then nm :: matchesFor st lid
      else matchesFor st lid := by
    intro lid
    unfold matchesFor
    rw [hlm, filter_matches_cons]
  refine ⟨?_, ?_, ?_, ?_, ?_⟩
  · rw [hsl, updateSourceLead_ids st c.source_lead_id
      (fun L => { L with match_status := MatchStatus.matched,
                         match_confidence := some c.confidence_score })
      (fun r => rfl)]
    exact hids
  · intro m hm
    rw [hlm] at hm
    rcases List.mem_cons.mp hm with h | h
    · rw [h]; exact hnm2
    · exact hact m h
  · intro L' hL'
    rw [hsl] at hL'
    obtain ⟨L0, hL0, hite⟩ := mem_updateSourceLead hL'
    rw [hmf]
    by_cases h0 : L0.id = c.source_lead_id
    · rw [if_pos h0] at hite
      have hid' : L'.id = c.source_lead_id := by rw [← hite, h0]
      have hst' : L'.match_status = .matched := by rw [← hite]
      rw [hid', if_pos hnm1, hst', if_pos rfl, List.length_cons, hcnt0]
    · rw [if_neg h0] at hite
      subst hite
      rw [if_neg (fun hcon => h0 ((hnm1.symm.trans hcon).symm))]
      exact hcount L0 hL0
  · intro c' hc' hpend'
    obtain ⟨c0, hc0, hsrc, hc0pend, hc0ne⟩ := hmc c' hc' hpend'
    obtain ⟨L1, hL1, hL1id, hL1st⟩ := hc4 c0 hc0 hc0pend
    have hL1ne : L1.id ≠ c.source_lead_id := by
      rw [hL1id]
      exact hc0ne
    refine ⟨L1, ?_, by rw [hL1id, hsrc], hL1st⟩
    rw [hsl]
    have := @updateSourceLead_mem st c.source_lead_id
      (fun L => { L with match_status := MatchStatus.matched,
                         match_confidence := some c.confidence_score }) L1 hL1
    rwa [if_neg hL1ne] at this
  · intro L' hL' hLpend' c' hc'
    rw [hsl] at hL'
    obtain ⟨L0, hL0, hite⟩ := mem_updateSourceLead hL'
    by_cases h0 : L0.id = c.source_lead_id
    · rw [if_pos h0] at hite
      rw [← hite] at hLpend'
      exact absurd hLpend' (fun h => MatchStatus.noConfusion h)
    · rw [if_neg h0] at hite
      subst hite
      obtain ⟨c0, hc0, hsrc⟩ := hms c' hc'
      rw [← hsrc]
      exact hc5 L0 hL0 hLpend' c0 hc0

theorem approveCandidate_inv (st : MatcherState) (cid r : Nat)
    (hInv : MatcherInv st) (c : MatchCandidateRow)
    (hfind : st.match_candidates.find?
      (fun c0 => decide (c0.id = cid)) = some c)
    (hcpend : c.status = .pending) :
    MatcherInv (approveCandidate st cid r).1 := by
  have hcin : c ∈ st.match_candidates := List.mem_of_find?_eq_some hfind
  obtain ⟨L, hLmem, hLeq, hLrm⟩ := hInv.2.2.2.1 c hcin hcpend
  have hLnm : L.match_status ≠ MatchStatus.matched := by
    intro hcon
    rcases hLrm with h1 | h1 <;> rw [h1] at hcon <;>
      exact MatchStatus.noConfusion hcon
  have hcnt0 : (matchesFor st c.source_lead_id).length = 0 := by
    have h := hInv.2.2.1 L hLmem
    rw [hLeq, if_neg hLnm] at h
    exact h
  have hmfnil : matchesFor st c.source_lead_id = [] :=
    List.length_eq_zero.mp hcnt0
  have hpair : ¬ leadMatchPairExists st c.source_lead_id c.fub_lead_id = true := by
    intro htrue
    unfold leadMatchPairExists at htrue
    rw [List.any_eq_true] at htrue
    obtain ⟨m, hm, hmp⟩ := htrue
    simp only [decide_eq_true_eq] at hmp
    have hmem : m ∈ matchesFor st c.source_lead_id :=
      List.mem_filter.mpr ⟨hm, by simp [hmp.1]⟩
    rw [hmfnil] at hmem
    exact absurd hmem (List.not_mem_nil m)
  unfold approveCandidate
  split
  · rename_i heq
    rw [hfind] at heq
    exact Option.noConfusion heq
  · rename_i candidate heq
    rw [hfind] at heq
    injection heq with heq
    subst heq
    rw [if_neg hpair]
    refine inv_approve st _ c hInv hcin hcpend
      { id := st.next_id, source_lead_id := c.source_lead_id,
        fub_lead_id := c.fub_lead_id, match_type := .manual,
        match_confidence := c.confidence_score, matched_by := .manual,
        matched_by_user_id := some r,
        attributed_agent_id := (resolveAttribution st c.fub_lead_id).1,
        attributed_team_id := (resolveAttribution st c.fub_lead_id).2,
        status := .active }
      rfl rfl rfl rfl ?_ ?_
    · intro c' hc' hp'
      obtain ⟨c1, hc1, hg2⟩ := List.mem_map.mp hc'
      obtain ⟨c0, hc0, hg1⟩ := List.mem_map.mp hc1
      by_cases hq2 : c1.source_lead_id = c.source_lead_id ∧
          c1.id ≠ cid ∧ c1.status = MCStatus.pending
      · rw [if_pos hq2] at hg2
        rw [← hg2] at hp'
        exact absurd hp' (fun h => MCStatus.noConfusion h)
      · rw [if_neg hq2] at hg2
        subst hg2
        by_cases hq1 : c0.id = cid
        · rw [if_pos hq1] at hg1
          rw [← hg1] at hp'
          exact absurd hp' (fun h => MCStatus.noConfusion h)
        · rw [if_neg hq1] at hg1
          subst hg1
          exact ⟨c0, hc0, rfl, hp', fun hs => hq2 ⟨hs, hq1, hp'⟩⟩
    · intro c' hc'
      obtain ⟨c1, hc1, hg2⟩ := List.mem_map.mp hc'
      obtain ⟨c0, hc0, hg1⟩ := List.mem_map.mp hc1
      have h2 : c1.source_lead_id = c'.source_lead_id := by
        rw [← hg2]
        by_cases hq2 : c1.source_lead_id = c.source_lead_id ∧
            c1.id ≠ cid ∧ c1.status = MCStatus.pending
        · rw [if_pos hq2]
        · rw [if_neg hq2]
      have h1 : c0.source_lead_id = c1.source_lead_id := by
        rw [← hg1]
        by_cases hq1 : c0.id = cid
        · rw [if_pos hq1]
        · rw [if_neg hq1]
      exact ⟨c0, hc0, h1.trans h2⟩

theorem guardedStep_inv (sim : List Nat → List Nat → Nat)
    {s t : MatcherState} (h : GuardedStep sim s t) (hInv : MatcherInv s) :
    MatcherInv t := by
  cases h with
  | matcher ids hnd hpend => exact matcherRunExplicit_inv sim ids s hnd hInv hpend
  | approve cid r c hfind hpend => exact approveCandidate_inv s cid r hInv c hfind hpend

theorem guardedReachable_inv (sim : List Nat → List Nat → Nat)
    {s t : MatcherState} (h : GuardedReachable sim s t) (hInv : MatcherInv s) :
    MatcherInv t := by
  induction h with
  | refl => exact hInv
  | tail hst hstep ih => exact guardedStep_inv sim hstep ih

theorem initial_inv {st : MatcherState} (h : InitialMatcherState st) :
    MatcherInv st := by
  obtain ⟨hlm, hmc, hpend, hids⟩ := h
  refine ⟨hids, ?_, ?_, ?_, ?_⟩
  · intro m hm
    rw [hlm] at hm
    exact absurd hm (List.not_mem_nil m)
  · intro L hL
    simp [matchesFor, hlm, hpend L hL]
  · intro c hc _
    rw [hmc] at hc
    exact absurd hc (List.not_mem_nil c)
  · intro L _ _ c hc
    rw [hmc] at hc
    exact absurd hc (List.not_mem_nil c)

theorem inv_implies_C1 {st : MatcherState} (hInv : MatcherInv st) :
    C1Prop st := by
  obtain ⟨hids, hact, hcount, hc4, hc5⟩ := hInv
  intro L hL
  have hfe : (st.lead_matches.filter fun m =>
      decide (m.source_lead_id = L.id ∧ m.status = LMStatus.active)) =
      matchesFor st L.id := by
    unfold matchesFor
    apply List.filter_congr
    intro m hm
    simp [hact m hm]
  rw [hfe]
  constructor
  · rw [hcount L hL]
    split <;> decide
  · rw [hcount L hL]
    constructor
    · intro h
      rw [if_pos h]
    · intro h
      by_cases hm : L.match_status = .matched
      · exact hm
      · rw [if_neg hm] at h
        exact absurd h (by decide)

/-- C1 (amended): the claimed invariant — at most one active `lead_matches`
row per canonical lead, with `match_status = 'matched'` exactly when one
exists — holds in every state reachable from an initial state by the
*guarded* pipeline, in which the matcher only processes leads that are
still `pending` (what the cron/organization entry's
`match_status = 'pending'` filter enforces) and approval only succeeds on a
`pending` candidate (the spec's 409 guard, absent from the code).  The
unguarded pipeline of the repository violates the invariant
(`C1_counterexample`): re-running the matcher on an explicitly listed
already-`matched` lead flips it back to `review` while its active match
survives. -/
theorem C1_guarded_invariant (sim : List Nat → List Nat → Nat)
    (st0 st : MatcherState) (h0 : InitialMatcherState st0)
    (hreach : GuardedReachable sim st0 st) : C1Prop st :=
  inv_implies_C1 (guardedReachable_inv sim hreach (initial_inv h0))

theorem C1_witness :
    InitialMatcherState reState ∧
    C1Prop (matcherRunExplicit matcherSim reState [1]) :=
  ⟨by unfold InitialMatcherState; decide,
   C1_guarded_invariant matcherSim reState
     (matcherRunExplicit matcherSim reState [1])
     (by unfold InitialMatcherState; decide)
     (Relation.ReflTransGen.single
       (GuardedStep.matcher reState [1] (by decide) (by decide)))⟩

/-! ### Email-ingest staging (C6) -/

/-- `raw_ingestions.ingest_type` (check constraint of
`00002`/part_006: `email`, `api`, `manual`, `backfill`). -/
inductive IngType
  | email
  | api
  | manual
  | backfill
deriving DecidableEq

/-- `raw_ingestions.status` (check constraint of part_006); `incomplete`
stands for the source's seventh value, which is a Lean keyword. -/
inductive IngStatus
  | pending
  | processing
  | parsed
  | transforming
  | completed
  | failed
  | incomplete
deriving DecidableEq

/-- One `processing_log` entry's `action` tag (the JSON also carries a
timestamp and a details blob; both derived from the call's inputs). -/
inductive IngAction
  | email_received
  | parsing_started
  | parsing_completed
  | transformation_started
  | transformation_completed
deriving DecidableEq

/-- A `raw_ingestions` row.  `file_url` is
`ingestions/${Date.now()}_${filename}`, modelled as the pair
`(path_time, file_name)`; the SHA-256 digest is an abstract `Nat`;
`email_from` / `email_subject` / timestamp columns, which are verbatim
copies of the call's inputs and are never read back by the functions
modelled here, are omitted. -/
structure RawIngestionRow where
  id : Nat
  lead_source_id : Option Nat
  organization_id : Option Nat
  ingest_type : IngType
  file_name : List Nat
  path_time : Nat
  file_hash : Nat
  status : IngStatus
  total_rows : Option Nat
  parsed_rows : Nat
  valid_rows : Nat
  duplicate_rows : Nat
  error_rows : Nat
  processing_log : List IngAction
deriving DecidableEq

/-- A blob of the `lead-files` storage bucket, at path
`ingestions/${Date.now()}_${filename}`. -/
structure StoredFile where
  path_time : Nat
  path_name : List Nat
  content : List Nat
deriving DecidableEq

/-- The stores touched by the email-ingest function. -/
structure IngestState where
  raw_ingestions : List RawIngestionRow
  storage : List StoredFile
  next_id : Nat
deriving DecidableEq

/-- A CSV attachment extracted from the inbound email. -/
structure Attachment where
  filename : List Nat
  content : List Nat
deriving DecidableEq

/-- One iteration of the email-ingest attachment loop
(`_shared/cors.ts`): hash the content, look the hash up with
`.eq("file_hash", fileHash).single()` — which yields a row exactly when
*one* matching row exists (`.single()` errors on zero or several, and the
code only tests `if (existing)`) — and `continue` on a hit, returning no
id; otherwise upload the blob and insert a `pending` row whose counters
take the schema defaults.  The duplicate probe filters on `file_hash`
alone: it is not scoped to the organization.  `hash` abstracts SHA-256. -/
def stageAttachment (hash : List Nat → Nat) (st : IngestState)
    (att : Attachment) (lsrc orgId : Option Nat) (now : Nat) :
    IngestState × Option Nat :=
  let fileHash := hash att.content
  if (st.raw_ingestions.filter fun i =>
      decide (i.file_hash = fileHash)).length = 1 then
    (st, none)
  else
    ({ raw_ingestions :=
        { id := st.next_id, lead_source_id := lsrc,
          organization_id := orgId, ingest_type := .email,
          file_name := att.filename, path_time := now,
          file_hash := fileHash, status := .pending,
          total_rows := none, parsed_rows := 0, valid_rows := 0,
          duplicate_rows := 0, error_rows := 0,
          processing_log := [.email_received] } :: st.raw_ingestions,
       storage :=
        { path_time := now, path_name := att.filename,
          content := att.content } :: st.storage,
       next_id := st.next_id + 1 },
     some st.next_id)

/-- The email-ingest `serve` body after attachment extraction: stage each
CSV attachment in order and return the state plus the `ingestion_ids` of
the *newly created* rows (`ingestions.push(ingestion)` runs only on the
insert path — a duplicate contributes nothing to the response). -/
def emailIngest (hash : List Nat → Nat) (st : IngestState)
    (atts : List Attachment) (lsrc orgId : Option Nat) (now : Nat) :
    IngestState × List Nat :=
  atts.foldl
    (fun acc att =>
      let step := stageAttachment hash acc.1 att lsrc orgId now
      (step.1, match step.2 with
        | none => acc.2
        | some i => acc.2 ++ [i]))
    (st, [])

/-- A concrete stand-in for the SHA-256 digest in C6's concrete runs. -/
def c6hash : List Nat → Nat :=
  fun l => l.foldl (fun a c => 2 * a + c) 1

def c6att : Attachment :=
  { filename := strChars "leads.csv", content := strChars "email,name" }

def c6St0 : IngestState :=
  { raw_ingestions := [], storage := [], next_id := 100 }

/-- C6 counterexample: staging the same attachment twice.  The first call
creates batch `100` and returns `[100]`; the second call writes nothing —
but it also returns `[]`, not the first batch's id, because the duplicate
branch is a bare `continue` that never pushes the existing row into the
response. -/
theorem C6_counterexample :
    (emailIngest c6hash c6St0 [c6att] (some 1) (some 2) 111).2 = [100] ∧
    emailIngest c6hash
      (emailIngest c6hash c6St0 [c6att] (some 1) (some 2) 111).1
      [c6att] (some 1) (some 2) 222 =
      ((emailIngest c6hash c6St0 [c6att] (some 1) (some 2) 111).1, []) ∧
    (emailIngest c6hash
      (emailIngest c6hash c6St0 [c6att] (some 1) (some 2) 111).1
      [c6att] (some 1) (some 2) 222).2 ≠ [100] := by
  decide

/-- C6 (amended): staging the same file bytes twice is *write-idempotent*
but not *response-idempotent*.  Under a fresh hash, the first call creates
exactly one batch (id `st.next_id`) and returns it; the second call
performs no writes at all — no batch row, no blob, no log entry, no id
allocation (the state is returned unchanged) — but its `ingestion_ids`
response is `[]`: the duplicate branch `continue`s without reporting the
existing batch's id. -/
theorem C6_duplicate_staging (hash : List Nat → Nat) (st : IngestState)
    (a : Attachment) (lsrc orgId : Option Nat) (now now2 : Nat)
    (hfresh : (st.raw_ingestions.filter fun i =>
      decide (i.file_hash = hash a.content)).length = 0) :
    (emailIngest hash st [a] lsrc orgId now).2 = [st.next_id] ∧
    emailIngest hash (emailIngest hash st [a] lsrc orgId now).1 [a]
      lsrc orgId now2 =
      ((emailIngest hash st [a] lsrc orgId now).1, []) := by
  have hne1 : ¬ ((st.raw_ingestions.filter fun i =>
      decide (i.file_hash = hash a.content)).length = 1) := by
    rw [hfresh]
    decide
  have hnil : (st.raw_ingestions.filter fun i =>
      decide (i.file_hash = hash a.content)) = [] :=
    List.length_eq_zero.mp hfresh
  constructor
  · simp only [emailIngest, stageAttachment, List.foldl, if_neg hne1]
    rfl
  · simp only [emailIngest, stageAttachment, List.foldl, if_neg hne1]
    simp only [List.filter_cons, hnil, decide_eq_true_eq]
    simp

theorem C6_witness :
    ((c6St0.raw_ingestions.filter fun i =>
      decide (i.file_hash = c6hash c6att.content)).length = 0) ∧
    ((emailIngest c6hash c6St0 [c6att] (some 5) (some 6) 111).2 =
        [c6St0.next_id] ∧
      emailIngest c6hash
        (emailIngest c6hash c6St0 [c6att] (some 5) (some 6) 111).1
        [c6att] (some 5) (some 6) 222 =
        ((emailIngest c6hash c6St0 [c6att] (some 5) (some 6) 111).1, [])) :=
  ⟨by decide,
   C6_duplicate_staging c6hash c6St0 c6att (some 5) (some 6) 111 222
     (by decide)⟩

/-! ### Embedding queue worker (C7) -/

/-- `embedding_queue.status` (check constraint of 00007). -/
inductive QStatus
  | pending
  | processing
  | completed
  | failed
deriving DecidableEq

/-- An `embedding_queue` row.  The 1536-dim vector is abstracted to a
`Nat`; `processed_at` (a timestamp copied from the clock, never read
back) is omitted. -/
structure QueueItem where
  id : Nat
  table_name : List Nat
  record_id : Nat
  text_to_embed : List Nat
  status : QStatus
  attempts : Nat
  last_error : Option (List Nat)
  embedding : Option Nat
  created_at : Nat
deriving DecidableEq

/-- `created_at` ordering used by the claim query's
`.order("created_at", { ascending: true })`. -/
def createdLe (a b : QueueItem) : Prop :=
  a.created_at ≤ b.created_at

instance : DecidableRel createdLe :=
  fun a b => inferInstanceAs (Decidable (a.created_at ≤ b.created_at))

instance : IsTotal QueueItem createdLe :=
  ⟨fun a b => Nat.le_total a.created_at b.created_at⟩

instance : IsTrans QueueItem createdLe :=
  ⟨fun _ _ _ hab hbc => Nat.le_trans hab hbc⟩

/-- The items a worker run claims: `status = 'pending'` and
`attempts < maxAttempts`, ordered by `created_at` ascending, first
`batchSize` of them. -/
def queueClaim (q : List QueueItem) (batchSize maxAttempts : Nat) :
    List QueueItem :=
  ((q.filter fun i =>
      decide (i.status = QStatus.pending ∧
        i.attempts < maxAttempts)).insertionSort createdLe).take batchSize

/-- The whole-batch failure write of `processEmbeddingQueue`, applied to
each row of the table per claimed `item`: `status = 'pending'`,
`attempts = item.attempts + 1` (the value read at claim time),
`last_error = e` — and **not** `'failed'`, which no code path ever
writes. -/
def revStep (e : List Nat) (y it : QueueItem) : QueueItem :=
  if y.id = it.id then
    { y with status := QStatus.pending, attempts := it.attempts + 1,
             last_error := some e }
  else y

/-- The `.in("id", itemIds)` claim update: `status = 'processing'`. -/
def markProcessing (ids : List Nat) (i : QueueItem) : QueueItem :=
  if decide (i.id ∈ ids) then { i with status := QStatus.processing } else i

/-- `processEmbeddingQueue(supabase, batchSize = 50, maxAttempts = 3)` of
`_shared/embeddings.ts`, write for write over the `embedding_queue` table.
`provider` abstracts the batched `generateEmbeddings` call (error = thrown
exception); `updErr item` abstracts the per-item target-table update
(`some msg` = the row update threw).  The target tables' embedding
columns are outside this state.  Returns the new queue plus
`{ processed, failed }`. -/
def processEmbeddingQueue
    (provider : List (List Nat) → Except (List Nat) (List Nat))
    (updErr : QueueItem → Option (List Nat))
    (q : List QueueItem) (batchSize maxAttempts : Nat) :
    List QueueItem × Nat × Nat :=
  let items := queueClaim q batchSize maxAttempts
  if items.isEmpty then (q, 0, 0)
  else
    let itemIds := items.map fun i => i.id
    let q1 := q.map fun i => markProcessing itemIds i
    match provider (items.map fun i => i.text_to_embed) with
    | .error e =>
      (items.foldl (fun acc item => acc.map fun i => revStep e i item) q1,
       0, items.length)
    | .ok embs =>
      items.enum.foldl
        (fun acc p =>
          match updErr p.2 with
          | none =>
            (acc.1.map fun i =>
              if i.id = p.2.id then
                { i with status := QStatus.completed,
                         embedding := some (embs.getD p.1 0) }
              else i,
             acc.2.1 + 1, acc.2.2)
          | some msg =>
            (acc.1.map fun i =>
              if i.id = p.2.id then
                { i with status := QStatus.pending,
                         attempts := p.2.attempts + 1,
                         last_error := some msg }
              else i,
             acc.2.1, acc.2.2 + 1))
        (q1, 0, 0)

theorem foldl_map_eq {α β : Type} (g : α → β → β) (items : List α) :
    ∀ l : List β,
      items.foldl (fun acc it => acc.map (g it)) l =
        l.map fun x => items.foldl (fun y it => g it y) x := by
  induction items with
  | nil =>
    intro l
    simp
  | cons it rest ih =>
    intro l
    rw [List.foldl_cons, ih, List.map_map]
    apply List.map_congr_left
    intro x _
    rfl

theorem foldRev_not_mem (e : List Nat) (items : List QueueItem) :
    ∀ y : QueueItem,
      y.id ∉ items.map (fun it => it.id) →
      items.foldl (fun y it => revStep e y it) y = y := by
  induction items with
  | nil => intro y _; rfl
  | cons it rest ih =>
    intro y hy
    simp only [List.map_cons, List.mem_cons] at hy
    push_neg at hy
    rw [List.foldl_cons,
      show revStep e y it = y from by unfold revStep; rw [if_neg hy.1]]
    exact ih y hy.2

theorem foldRev_single (e : List Nat) (items : List QueueItem) :
    ∀ (y item : QueueItem),
      ((items.map fun it => it.id).Nodup) → item ∈ items →
      y.id = item.id →
      items.foldl (fun y it => revStep e y it) y =
        { y with status := QStatus.pending, attempts := item.attempts + 1,
                 last_error := some e } := by
  induction items with
  | nil => intro y item _ him _; exact absurd him (List.not_mem_nil item)
  | cons it rest ih =>
    intro y item hnd him hy
    rw [List.map_cons, List.nodup_cons] at hnd
    rw [List.foldl_cons]
    rcases List.mem_cons.mp him with h0 | h0
    · subst h0
      rw [show revStep e y item =
          { y with status := QStatus.pending,
                   attempts := item.attempts + 1,
                   last_error := some e } from by
        unfold revStep; rw [if_pos hy]]
      refine foldRev_not_mem e rest _ ?_
      show y.id ∉ rest.map fun it => it.id
      rw [hy]
      exact hnd.1
    · have hne : y.id ≠ it.id := by
        rw [hy]
        intro hcon
        exact hnd.1 (hcon ▸ List.mem_map.mpr ⟨item, h0, rfl⟩)
      rw [show revStep e y it = y from by unfold revStep; rw [if_neg hne]]
      exact ih y item hnd.2 h0 hy

theorem foldRev_status (e : List Nat) (items : List QueueItem) :
    ∀ y : QueueItem,
      (items.foldl (fun y it => revStep e y it) y).status = y.status ∨
      (items.foldl (fun y it => revStep e y it) y).status =
        QStatus.pending := by
  induction items with
  | nil => intro y; exact Or.inl rfl
  | cons it rest ih =>
    intro y
    rw [List.foldl_cons]
    by_cases h : y.id = it.id
    · rw [show revStep e y it =
          { y with status := QStatus.pending, attempts := it.attempts + 1,
                   last_error := some e } from by
        unfold revStep; rw [if_pos h]]
      rcases ih ({ y with status := QStatus.pending, attempts := it.attempts + 1, last_error := some e }) with h1 | h1
      · exact Or.inr h1
      · exact Or.inr h1
    · rw [show revStep e y it = y from by unfold revStep; rw [if_neg h]]
      exact ih y

theorem markProcessing_of_mem {ids : List Nat} {i : QueueItem}
    (h : i.id ∈ ids) :
    markProcessing ids i = { i with status := QStatus.processing } := by
  unfold markProcessing
  rw [if_pos (by simpa using h)]

theorem markProcessing_of_not_mem {ids : List Nat} {i : QueueItem}
    (h : i.id ∉ ids) : markProcessing ids i = i := by
  unfold markProcessing
  rw [if_neg (by simpa using h)]

theorem markProcessing_status (ids : List Nat) (i : QueueItem) :
    (markProcessing ids i).status = i.status ∨
    (markProcessing ids i).status = QStatus.processing := by
  unfold markProcessing
  split
  · exact Or.inr rfl
  · exact Or.inl rfl

theorem queueClaim_subset (q : List QueueItem) (bs ma : Nat) :
    ∀ it ∈ queueClaim q bs ma, it ∈ q := by
  intro it hit
  unfold queueClaim at hit
  have h1 := (List.take_sublist bs _).subset hit
  have h2 := (List.perm_insertionSort createdLe _).subset h1
  exact (List.filter_sublist q).subset h2

theorem queueClaim_spec (q : List QueueItem) (bs ma : Nat) :
    ∀ it ∈ queueClaim q bs ma,
      it.status = QStatus.pending ∧ it.attempts < ma := by
  intro it hit
  unfold queueClaim at hit
  have h1 := (List.take_sublist bs _).subset hit
  have h2 := (List.perm_insertionSort createdLe _).subset h1
  have h3 := (List.mem_filter.mp h2).2
  simpa using h3

theorem queueClaim_ids_nodup (q : List QueueItem) (bs ma : Nat)
    (h : (q.map fun i => i.id).Nodup) :
    ((queueClaim q bs ma).map fun i => i.id).Nodup := by
  have h1 : ((q.filter fun i =>
      decide (i.status = QStatus.pending ∧ i.attempts < ma)).map
        fun i => i.id).Nodup :=
    ((List.filter_sublist q).map fun i => i.id).nodup h
  have h2 : (((q.filter fun i =>
      decide (i.status = QStatus.pending ∧
        i.attempts < ma)).insertionSort createdLe).map
        fun i => i.id).Nodup :=
    (((List.perm_insertionSort createdLe _).map fun i => i.id).nodup_iff).mpr h1
  unfold queueClaim
  rw [List.map_take]
  exact (List.take_sublist bs _).nodup h2

theorem foldRevMap (e : List Nat) (items : List QueueItem) :
    ∀ l : List QueueItem,
      items.foldl (fun acc item => acc.map fun i => revStep e i item) l =
        l.map fun x => items.foldl (fun y it => revStep e y it) x := by
  induction items with
  | nil =>
    intro l
    simp
  | cons it rest ih =>
    intro l
    rw [List.foldl_cons, ih, List.map_map]
    apply List.map_congr_left
    intro x _
    rfl

/-- C7 (amended): on whole-batch provider failure every claimed task is
reverted to `status = 'pending'` with `attempts` incremented from the
claim-time value and `last_error` recorded; unclaimed rows are untouched
and no rows appear or disappear; the run reports `processed = 0` and
`failed = #claimed`.  A task whose `attempts` has reached `maxAttempts`
is never claimed (the fetch filters `attempts < maxAttempts`) — but it is
left at `'pending'`, not `'failed'`: no code path of the worker ever
writes `status = 'failed'`, so a queue without `'failed'` rows still has
none after the run. -/
theorem C7_worker_retry_semantics
    (provider : List (List Nat) → Except (List Nat) (List Nat))
    (updErr : QueueItem → Option (List Nat))
    (q : List QueueItem) (bs ma : Nat) (e : List Nat)
    (hids : (q.map fun i => i.id).Nodup)
    (hfail : provider ((queueClaim q bs ma).map fun i => i.text_to_embed) =
      Except.error e) :
    (∀ item ∈ queueClaim q bs ma,
      { item with status := QStatus.pending, attempts := item.attempts + 1,
                  last_error := some e } ∈
        (processEmbeddingQueue provider updErr q bs ma).1) ∧
    (∀ i ∈ q, i.id ∉ (queueClaim q bs ma).map (fun it => it.id) →
      i ∈ (processEmbeddingQueue provider updErr q bs ma).1) ∧
    (processEmbeddingQueue provider updErr q bs ma).1.length = q.length ∧
    (processEmbeddingQueue provider updErr q bs ma).2.1 = 0 ∧
    (processEmbeddingQueue provider updErr q bs ma).2.2 =
      (queueClaim q bs ma).length ∧
    (∀ it ∈ queueClaim q bs ma, it.attempts < ma) ∧
    ((∀ i ∈ q, i.status ≠ QStatus.failed) →
      ∀ j ∈ (processEmbeddingQueue provider updErr q bs ma).1,
        j.status ≠ QStatus.failed) := by
  by_cases hemp : (queueClaim q bs ma).isEmpty
  · have hC : queueClaim q bs ma = [] := List.isEmpty_iff.mp hemp
    have hrun : processEmbeddingQueue provider updErr q bs ma = (q, 0, 0) := by
      simp only [processEmbeddingQueue]
      rw [if_pos hemp]
    rw [hrun, hC]
    refine ⟨?_, ?_, rfl, rfl, rfl, ?_, ?_⟩
    · intro item h
      exact absurd h (List.not_mem_nil item)
    · intro i hi _
      exact hi
    · intro it hit
      exact absurd hit (List.not_mem_nil it)
    · intro hno j hj
      exact hno j hj
  · have hrun : processEmbeddingQueue provider updErr q bs ma =
        ((queueClaim q bs ma).foldl
          (fun acc item => acc.map fun i => revStep e i item)
          (q.map fun i => markProcessing
            ((queueClaim q bs ma).map fun i => i.id) i),
         0, (queueClaim q bs ma).length) := by
      simp only [processEmbeddingQueue]
      rw [if_neg hemp, hfail]
    rw [hrun, foldRevMap]
    refine ⟨?_, ?_, ?_, rfl, rfl, ?_, ?_⟩
    · intro item hit
      have hiq := queueClaim_subset q bs ma item hit
      have hidmem : item.id ∈ (queueClaim q bs ma).map (fun i => i.id) :=
        List.mem_map.mpr ⟨item, hit, rfl⟩
      refine List.mem_map.mpr
        ⟨markProcessing ((queueClaim q bs ma).map fun i => i.id) item,
         List.mem_map.mpr ⟨item, hiq, rfl⟩, ?_⟩
      show (queueClaim q bs ma).foldl (fun y it => revStep e y it)
        (markProcessing ((queueClaim q bs ma).map fun i => i.id) item) =
        { item with status := QStatus.pending,
                    attempts := item.attempts + 1, last_error := some e }
      rw [markProcessing_of_mem hidmem]
      rw [foldRev_single e (queueClaim q bs ma)
        { item with status := QStatus.processing } item
        (queueClaim_ids_nodup q bs ma hids) hit rfl]
    · intro i hi hnid
      refine List.mem_map.mpr
        ⟨markProcessing ((queueClaim q bs ma).map fun it => it.id) i,
         List.mem_map.mpr ⟨i, hi, rfl⟩, ?_⟩
      show (queueClaim q bs ma).foldl (fun y it => revStep e y it)
        (markProcessing ((queueClaim q bs ma).map fun it => it.id) i) = i
      rw [markProcessing_of_not_mem hnid, foldRev_not_mem e _ i hnid]
    · show ((q.map fun i => markProcessing
        ((queueClaim q bs ma).map fun i => i.id) i).map fun x =>
          (queueClaim q bs ma).foldl (fun y it => revStep e y it) x).length =
        q.length
      rw [List.length_map, List.length_map]
    · intro it hit
      exact (queueClaim_spec q bs ma it hit).2
    · intro hno j hj
      obtain ⟨y, hy, hFy⟩ := List.mem_map.mp hj
      obtain ⟨x, hx, hmx⟩ := List.mem_map.mp hy
      rcases foldRev_status e (queueClaim q bs ma) y with h1 | h1 <;>
        rw [hFy] at h1
      · rw [← hmx] at h1
        rcases markProcessing_status
            ((queueClaim q bs ma).map fun i => i.id) x with h2 | h2
        · rw [h1, h2]
          exact hno x hx
        · rw [h1, h2]
          exact fun hcon => QStatus.noConfusion hcon
      · rw [h1]
        exact fun hcon => QStatus.noConfusion hcon

def c7item : QueueItem :=
  { id := 1, table_name := strChars "source_leads", record_id := 10,
    text_to_embed := strChars "lead text", status := .pending,
    attempts := 2, last_error := none, embedding := none, created_at := 5 }

/-- A provider whose batched call always throws. -/
def c7prov : List (List Nat) → Except (List Nat) (List Nat) :=
  fun _ => Except.error (strChars "rate limit")

def c7upd : QueueItem → Option (List Nat) :=
  fun _ => none

/-- C7 counterexample: one task with `attempts = 2` (so this is its third
and final try under `maxAttempts = 3`), whole-batch provider failure.  The
worker reverts it to `status = 'pending'` with `attempts = 3` — not
`'failed'` as the spec claims — and the next run claims nothing (the pool
filter `attempts < maxAttempts` excludes it), returning the queue
unchanged. -/
theorem C7_counterexample :
    (processEmbeddingQueue c7prov c7upd [c7item] 50 3).1 =
      [{ c7item with status := QStatus.pending, attempts := 3,
                     last_error := some (strChars "rate limit") }] ∧
    (∀ j ∈ (processEmbeddingQueue c7prov c7upd [c7item] 50 3).1,
      j.status ≠ QStatus.failed) ∧
    queueClaim (processEmbeddingQueue c7prov c7upd [c7item] 50 3).1 50 3 =
      [] ∧
    processEmbeddingQueue c7prov c7upd
      (processEmbeddingQueue c7prov c7upd [c7item] 50 3).1 50 3 =
      ((processEmbeddingQueue c7prov c7upd [c7item] 50 3).1, 0, 0) := by
  decide

theorem C7_witness :
    (([c7item].map fun i => i.id).Nodup ∧
      c7prov ((queueClaim [c7item] 50 3).map fun i => i.text_to_embed) =
        Except.error (strChars "rate limit")) ∧
    ((∀ item ∈ queueClaim [c7item] 50 3,
      { item with status := QStatus.pending, attempts := item.attempts + 1,
                  last_error := some (strChars "rate limit") } ∈
        (processEmbeddingQueue c7prov c7upd [c7item] 50 3).1) ∧
    (∀ i ∈ [c7item],
      i.id ∉ (queueClaim [c7item] 50 3).map (fun it => it.id) →
      i ∈ (processEmbeddingQueue c7prov c7upd [c7item] 50 3).1) ∧
    (processEmbeddingQueue c7prov c7upd [c7item] 50 3).1.length =
      [c7item].length ∧
    (processEmbeddingQueue c7prov c7upd [c7item] 50 3).2.1 = 0 ∧
    (processEmbeddingQueue c7prov c7upd [c7item] 50 3).2.2 =
      (queueClaim [c7item] 50 3).length ∧
    (∀ it ∈ queueClaim [c7item] 50 3, it.attempts < 3) ∧
    ((∀ i ∈ [c7item], i.status ≠ QStatus.failed) →
      ∀ j ∈ (processEmbeddingQueue c7prov c7upd [c7item] 50 3).1,
        j.status ≠ QStatus.failed)) :=
  ⟨⟨by decide, rfl⟩,
   C7_worker_retry_semantics c7prov c7upd [c7item] 50 3
     (strChars "rate limit") (by decide) rfl⟩

/-! ### Lead transformer deduplication (C9) -/

/-- JS `String.prototype.trim()` over code points (whitespace at both
ends; the ASCII whitespace set suffices for the inputs modelled here). -/
def jsTrim (l : List Nat) : List Nat :=
  (l.dropWhile isWsChar).rdropWhile isWsChar

/-- `rawData[col]` on a `Record<string, string>`. -/
def recordGet (r : List (List Nat × List Nat)) (k : List Nat) :
    Option (List Nat) :=
  (r.find? fun p => decide (p.1 = k)).map Prod.snd

/-- `mapFields(rawData, fieldMapping)` of the lead-transformer: for each
target field take the first source column whose value is present and
non-empty after `trim()`, storing the trimmed value; `null` otherwise. -/
def mapFields (rawData : List (List Nat × List Nat))
    (fieldMapping : List (List Nat × List (List Nat))) :
    List (List Nat × Option (List Nat)) :=
  fieldMapping.map fun p =>
    (p.1, p.2.findSome? fun col =>
      match recordGet rawData col with
      | none => none
      | some v => if jsTrim v = [] then none else some (jsTrim v))

/-- `normalized[field]` on the mapped record. -/
def mappedField (m : List (List Nat × Option (List Nat))) (k : List Nat) :
    Option (List Nat) :=
  match m.find? fun p => decide (p.1 = k) with
  | some p => p.2
  | none => none

/-- A `raw_lead_rows` row (part_006).  `validation_errors` and
timestamps, never read by the transformer, are omitted. -/
structure RawLeadRow where
  id : Nat
  ingestion_id : Nat
  row_number : Nat
  raw_data : List (List Nat × List Nat)
  is_valid : Option Bool
  is_duplicate : Bool
  duplicate_of : Option Nat
  source_lead_id : Option Nat
deriving DecidableEq

/-- A `source_leads` row as the transformer reads and writes it: the
dedup-key columns (`organization_id`, `email_normalized` — the 00005
generated column `lower(trim(email))` — and `lead_source_id`) plus
identity and status; the other copied columns (phone, names, address,
…) are write-only here and omitted. -/
structure XSourceLead where
  id : Nat
  raw_row_id : Nat
  ingestion_id : Nat
  lead_source_id : Nat
  organization_id : Nat
  email : Option (List Nat)
  email_normalized : Option (List Nat)
  match_status : MatchStatus
deriving DecidableEq

/-- The stores the transformer loop touches. -/
structure XformState where
  raw_lead_rows : List RawLeadRow
  source_leads : List XSourceLead
  data_lineage : List LineageRow
  next_id : Nat
deriving DecidableEq

/-- Outcome of one loop iteration. -/
inductive XOutcome
  | created
  | duplicate
deriving DecidableEq

/-- The create path of the loop: insert the `source_leads` row (the
generated `email_normalized` is PG `lower(trim(email))` — trim strips
spaces only), backfill `raw_lead_rows.source_lead_id`, record lineage. -/
def insertLead (st : XformState) (r : RawLeadRow)
    (normalized : List (List Nat × Option (List Nat)))
    (orgId leadSourceId : Nat) : XformState × XOutcome :=
  let em := mappedField normalized (strChars "email")
  ({ raw_lead_rows := st.raw_lead_rows.map fun rr =>
       if rr.id = r.id then { rr with source_lead_id := some st.next_id }
       else rr,
     source_leads :=
       { id := st.next_id, raw_row_id := r.id,
         ingestion_id := r.ingestion_id, lead_source_id := leadSourceId,
         organization_id := orgId, email := em,
         email_normalized := em.map fun e => (trimSpaces e).map lowerChar,
         match_status := .pending } :: st.source_leads,
     data_lineage :=
       { id := st.next_id + 1, source_table := .raw_lead_rows,
         source_id := r.id, target_table := .source_leads,
         target_id := st.next_id, operation := .create,
         transformation_type := .normalize,
         performed_by := .functionLeadTransformer } :: st.data_lineage,
     next_id := st.next_id + 2 },
   .created)

/-- One iteration of the transformer's row loop.  When the mapped email
is non-empty, look up `source_leads` by
`(organization_id, email_normalized = email.toLowerCase().trim(),
lead_source_id)` with `.single()` — a hit needs *exactly one* matching
row — and on a hit set the raw row
`is_duplicate = true, duplicate_of = existing.id`: **`existing.id` is a
`source_leads` id**, written into a column whose FK references
`raw_lead_rows(id)`. -/
def transformRow (st : XformState) (r : RawLeadRow)
    (fieldMapping : List (List Nat × List (List Nat)))
    (orgId leadSourceId : Nat) : XformState × XOutcome :=
  let normalized := mapFields r.raw_data fieldMapping
  match mappedField normalized (strChars "email") with
  | some em =>
    match st.source_leads.filter fun s =>
        decide (s.organization_id = orgId ∧
          s.lead_source_id = leadSourceId ∧
          s.email_normalized = some (jsTrim (em.map lowerChar))) with
    | [existing] =>
      ({ st with raw_lead_rows := st.raw_lead_rows.map fun rr =>
          if rr.id = r.id then
            { rr with is_duplicate := true,
                      duplicate_of := some existing.id }
          else rr },
       .duplicate)
    | _ => insertLead st r normalized orgId leadSourceId
  | none => insertLead st r normalized orgId leadSourceId

/-- The lead-transformer `serve` body after loading the ingestion: visit
every valid, untransformed row of the batch in order; returns the state
plus `(createdCount, duplicateCount)`. -/
def leadTransformer (st : XformState) (ingestionId : Nat)
    (fieldMapping : List (List Nat × List (List Nat)))
    (orgId leadSourceId : Nat) : XformState × Nat × Nat :=
  (st.raw_lead_rows.filter fun r =>
    decide (r.ingestion_id = ingestionId ∧ r.is_valid = some true ∧
      r.source_lead_id = none)).foldl
    (fun acc r =>
      let step := transformRow acc.1 r fieldMapping orgId leadSourceId
      match step.2 with
      | .created => (step.1, acc.2.1 + 1, acc.2.2)
      | .duplicate => (step.1, acc.2.1, acc.2.2 + 1))
    (st, 0, 0)

def c9row1 : RawLeadRow :=
  { id := 1, ingestion_id := 7, row_number := 1,
    raw_data := [(strChars "email", strChars "a@b.com")],
    is_valid := some true, is_duplicate := false, duplicate_of := none,
    source_lead_id := none }

def c9row2 : RawLeadRow :=
  { id := 2, ingestion_id := 7, row_number := 2,
    raw_data := [(strChars "email", strChars "a@b.com")],
    is_valid := some true, is_duplicate := false, duplicate_of := none,
    source_lead_id := none }

def c9St : XformState :=
  { raw_lead_rows := [c9row1, c9row2], source_leads := [],
    data_lineage := [], next_id := 100 }

def c9map : List (List Nat × List (List Nat)) :=
  [(strChars "email", [strChars "email"])]

/-- C9: the spec's scenario 3 — two valid rows of one batch with the same
email.  Row 2 is marked `is_duplicate = true` with
`duplicate_of = some 100`, where `100` is the id of the *canonical lead*
created from row 1, not the id of row 1 itself; no `raw_lead_rows` row
has id `100`, so the written value can never satisfy the schema's
`duplicate_of uuid references raw_lead_rows(id)` constraint, and the
spec's expected `duplicate_of = <row1> = some 1` is not what the code
writes.  No canonical lead is created for row 2 and the counters are
`(created, duplicates) = (1, 1)`. -/
theorem C9_fk_divergence :
    (∃ rr ∈ (leadTransformer c9St 7 c9map 3 4).1.raw_lead_rows,
      rr.id = 2 ∧ rr.is_duplicate = true ∧ rr.duplicate_of = some 100) ∧
    (∃ sl ∈ (leadTransformer c9St 7 c9map 3 4).1.source_leads,
      sl.id = 100 ∧ sl.raw_row_id = 1) ∧
    (∀ rr ∈ (leadTransformer c9St 7 c9map 3 4).1.raw_lead_rows,
      rr.id ≠ 100) ∧
    (∀ rr ∈ (leadTransformer c9St 7 c9map 3 4).1.raw_lead_rows,
      rr.id = 2 → rr.duplicate_of ≠ some 1) ∧
    (∀ sl ∈ (leadTransformer c9St 7 c9map 3 4).1.source_leads,
      sl.raw_row_id ≠ 2) ∧
    (leadTransformer c9St 7 c9map 3 4).2 = (1, 1) := by
  decide

/-! ### CSV parser row counters (C10) -/

/-- `fieldMapping[field] || [field]` (a present key wins even with an
empty column list — empty arrays are truthy in JS). -/
def fieldCols (fieldMapping : List (List Nat × List (List Nat)))
    (k : List Nat) : List (List Nat) :=
  match fieldMapping.find? fun p => decide (p.1 = k) with
  | some p => p.2
  | none => [k]

/-- A character admissible inside either side of the default email
regex: `[^\s@]`. -/
def okEmailChar (c : Nat) : Bool :=
  !isWsChar c && decide (c ≠ 64)

/-- The parser's default email test
`/^[^\s@]+@[^\s@]+\.[^\s@]+$/`: exactly one `@`, a non-empty
whitespace-free local part, and a domain part that is whitespace-free and
contains a `.` neither first nor last. -/
def emailFmt (l : List Nat) : Bool :=
  match l.splitOn 64 with
  | [a, b] =>
    !a.isEmpty && a.all okEmailChar && b.all okEmailChar &&
      ((b.drop 1).dropLast).contains 46
  | _ => false

/-- `validateRow(row, fieldMapping, validationRules)` with the default
`email_regex` (a per-tenant override is possible in `validation_rules`
but no tenant config is modelled): every required field must have a
non-empty trimmed value in one of its mapped columns, and the first
non-empty email column value must match the email regex (tested on the
*untrimmed* value). -/
def validateRow (row : List (List Nat × List Nat))
    (fieldMapping : List (List Nat × List (List Nat)))
    (required_fields : List (List Nat)) : Bool :=
  let missing := required_fields.filter fun rf =>
    !(fieldCols fieldMapping rf).any fun col =>
      match recordGet row col with
      | none => false
      | some v => !decide (v = []) && !decide (jsTrim v = [])
  let emailErr :=
    match (fieldCols fieldMapping (strChars "email")).findSome? fun col =>
        match recordGet row col with
        | none => none
        | some v =>
          if v = [] then none
          else if jsTrim v = [] then none
          else some v with
    | none => false
    | some v => !emailFmt v
  missing.isEmpty && !emailErr

/-- The csv-parser `serve` body after download and CSV parse, restricted
to the `raw_ingestions` row it updates: `total_rows := rows.length`
(written right after parsing), then the per-row validation loop counting
`validCount` / `errorCount`, then the end-of-parse update
`status = 'parsed'`, **`parsed_rows := rows.length`** (not
`rows.length - errorCount`), `valid_rows := validCount`,
`error_rows := errorCount`.  The inserted `raw_lead_rows` themselves are
not read back by this claim and are omitted. -/
def csvParseRun (ing : RawIngestionRow)
    (rows : List (List (List Nat × List Nat)))
    (fieldMapping : List (List Nat × List (List Nat)))
    (required_fields : List (List Nat)) : RawIngestionRow :=
  let counts := rows.foldl
    (fun acc row =>
      if validateRow row fieldMapping required_fields then
        (acc.1 + 1, acc.2)
      else (acc.1, acc.2 + 1))
    (0, 0)
  { ing with status := .parsed, total_rows := some rows.length,
             parsed_rows := rows.length, valid_rows := counts.1,
             error_rows := counts.2,
             processing_log := ing.processing_log ++
               [.parsing_started, .parsing_completed] }

theorem count_fold_sum {α : Type} (p : α → Bool) (rows : List α) :
    ∀ a b : Nat,
      (rows.foldl (fun acc row =>
        if p row then (acc.1 + 1, acc.2) else (acc.1, acc.2 + 1))
        (a, b)).1 +
      (rows.foldl (fun acc row =>
        if p row then (acc.1 + 1, acc.2) else (acc.1, acc.2 + 1))
        (a, b)).2 = rows.length + a + b := by
  induction rows with
  | nil =>
    intro a b
    show a + b = 0 + a + b
    omega
  | cons row rest ih =>
    intro a b
    rw [List.foldl_cons]
    by_cases hp : p row = true
    · rw [if_pos hp, ih (a + 1) b, List.length_cons]
      omega
    · rw [if_neg hp, ih a (b + 1), List.length_cons]
      omega

def c10ing : RawIngestionRow :=
  { id := 200, lead_source_id := none, organization_id := none,
    ingest_type := .email, file_name := strChars "x.csv", path_time := 0,
    file_hash := 0, status := .pending, total_rows := none,
    parsed_rows := 0, valid_rows := 0, duplicate_rows := 0,
    error_rows := 0, processing_log := [.email_received] }

def c10rows : List (List (List Nat × List Nat)) :=
  [[(strChars "name", strChars "Bob")]]

def c10map : List (List Nat × List (List Nat)) :=
  [(strChars "email", [strChars "email"])]

def c10req : List (List Nat) :=
  [strChars "email"]

/-- C10 counterexample: a one-row batch whose single row fails validation
(required email missing).  End-of-parse stores `total_rows = 1`,
`parsed_rows = 1`, `error_rows = 1` — so the claimed identity
`total_rows = parsed_rows + error_rows` reads `1 = 1 + 1` and fails. -/
theorem C10_counterexample :
    (csvParseRun c10ing c10rows c10map c10req).total_rows = some 1 ∧
    (csvParseRun c10ing c10rows c10map c10req).parsed_rows = 1 ∧
    (csvParseRun c10ing c10rows c10map c10req).valid_rows = 0 ∧
    (csvParseRun c10ing c10rows c10map c10req).error_rows = 1 ∧
    ¬ (csvParseRun c10ing c10rows c10map c10req).total_rows =
        some ((csvParseRun c10ing c10rows c10map c10req).parsed_rows +
          (csvParseRun c10ing c10rows c10map c10req).error_rows) := by
  decide

/-- C10 (amended): at end-of-parse the stored counters satisfy
`total_rows = parsed_rows` — the code writes `rows.length` to both, so
`total_rows = parsed_rows + error_rows` fails whenever a row is invalid —
and `parsed_rows = valid_rows + error_rows` (every parsed row is counted
exactly once as valid or invalid). -/
theorem C10_parse_counters (ing : RawIngestionRow)
    (rows : List (List (List Nat × List Nat)))
    (fieldMapping : List (List Nat × List (List Nat)))
    (required_fields : List (List Nat)) :
    (csvParseRun ing rows fieldMapping required_fields).total_rows =
      some (csvParseRun ing rows fieldMapping required_fields).parsed_rows ∧
    (csvParseRun ing rows fieldMapping required_fields).parsed_rows =
      (csvParseRun ing rows fieldMapping required_fields).valid_rows +
      (csvParseRun ing rows fieldMapping required_fields).error_rows := by
  constructor
  · rfl
  · show rows.length =
      (rows.foldl (fun acc row =>
        if validateRow row fieldMapping required_fields then
          (acc.1 + 1, acc.2)
        else (acc.1, acc.2 + 1)) (0, 0)).1 +
      (rows.foldl (fun acc row =>
        if validateRow row fieldMapping required_fields then
          (acc.1 + 1, acc.2)
        else (acc.1, acc.2 + 1)) (0, 0)).2
    rw [count_fold_sum (fun row =>
      validateRow row fieldMapping required_fields) rows 0 0]
    omega
